import Mathlib

/-!
Formal model of the lottery application in src/app.py.

The five sqlite tables (lotteries, participants, winners, lottery_logs,
scheduled_redraws) are embedded as lists of rows inside a `DB` record.
The operations of the program (run_draw, check_and_run_scheduled_draws,
check_and_run_scheduled_redraws, the re-draw planning branch of main, the
create branch of main, and lottery deletion) are embedded as pure
functions over `DB`.  The call to random.sample inside run_draw is
modelled by an oracle parameter; the contract of random.sample (a sample
of size k is k distinct positions of the pool, in any order) is the
predicate `SampleOf`, and `ValidOracle` says an oracle always honours it.
Timestamps are integers; names are lists of characters, so that the
comma join/split used for the frozen candidate list of a scheduled
redraw can be modelled faithfully.
-/

abbrev Name := List Char

inductive Status where
  | scheduled
  | completed
  deriving DecidableEq

structure Lottery where
  id : Nat
  title : Name
  drawTime : Int
  numWinners : Int
  status : Status
  deriving DecidableEq

structure ParticipantRow where
  lotteryId : Nat
  name : Name
  deriving DecidableEq

structure WinnerRow where
  lotteryId : Nat
  winnerName : Name
  drawRound : Nat
  deriving DecidableEq

inductive LogMsg where
  | created
  | drew (round : Nat) (ws : List Name)
  | redrawScheduled (numCands : Nat)
  deriving DecidableEq

structure LogRow where
  lotteryId : Nat
  message : LogMsg
  deriving DecidableEq

structure RedrawJob where
  id : Nat
  lotteryId : Nat
  executionTime : Int
  numWinners : Int
  candidates : Name
  deriving DecidableEq

structure DB where
  lotteries : List Lottery
  participants : List ParticipantRow
  winners : List WinnerRow
  logs : List LogRow
  redraws : List RedrawJob
  deriving DecidableEq

def DB.empty : DB := ⟨[], [], [], [], []⟩

/-- Rows of the winners table belonging to one lottery
(SELECT ... FROM winners WHERE lottery_id = ?). -/
def winnersFor (db : DB) (lid : Nat) : List WinnerRow :=
  db.winners.filter (fun w => w.lotteryId == lid)

/-- SELECT winner_name FROM winners WHERE lottery_id = ?. -/
def winnerNames (db : DB) (lid : Nat) : List Name :=
  (winnersFor db lid).map (fun w => w.winnerName)

/-- SELECT name FROM participants WHERE lottery_id = ?. -/
def participantNames (db : DB) (lid : Nat) : List Name :=
  (db.participants.filter (fun p => p.lotteryId == lid)).map (fun p => p.name)

/-- SELECT MAX(draw_round) FROM winners WHERE lottery_id = ?, with NULL
read as 0 (the expression `c.fetchone()[0] or 0` in run_draw). -/
def maxRound (db : DB) (lid : Nat) : Nat :=
  ((winnersFor db lid).map (fun w => w.drawRound)).foldr max 0

def getLottery (db : DB) (lid : Nat) : Option Lottery :=
  db.lotteries.find? (fun l => l.id == lid)

/-- INSERT INTO lottery_logs (one row, its own commit in add_log). -/
def addLog (db : DB) (lid : Nat) (m : LogMsg) : DB :=
  ⟨db.lotteries, db.participants, db.winners, db.logs ++ [⟨lid, m⟩], db.redraws⟩

/-- Mark one lottery row completed when its id is in `s`. -/
def markDone (s : List Nat) (l : Lottery) : Lottery :=
  if l.id ∈ s then ⟨l.id, l.title, l.drawTime, l.numWinners, Status.completed⟩ else l

/-- UPDATE lotteries SET status = completed WHERE id = lid, expressed as a
map over the rows; `completeIds` marks every row whose id is in `s`. -/
def completeIds (s : List Nat) (ls : List Lottery) : List Lottery :=
  ls.map (markDone s)

def setCompleted (db : DB) (lid : Nat) : DB :=
  ⟨completeIds [lid] db.lotteries, db.participants, db.winners, db.logs, db.redraws⟩

/-- The loop of INSERT INTO winners rows in run_draw: one row per selected
name, all tagged with the same round. -/
def insertWinners (db : DB) (lid : Nat) (ws : List Name) (r : Nat) : DB :=
  ⟨db.lotteries, db.participants,
   db.winners ++ ws.map (fun a => ⟨lid, a, r⟩), db.logs, db.redraws⟩

/-- DELETE FROM scheduled_redraws WHERE id = ?. -/
def deleteJob (db : DB) (jid : Nat) : DB :=
  ⟨db.lotteries, db.participants, db.winners, db.logs,
   db.redraws.filter (fun j => !(j.id == jid))⟩

/-- An oracle stands for the random number generator: call number, pool and
requested size are mapped to the list random.sample returns. -/
def Oracle := Nat → List Name → Nat → List Name

/-- Contract of random.sample(pool, k): the result has length k and is a
permutation of a sublist of the pool (k distinct positions, any order). -/
def SampleOf (pool : List Name) (k : Nat) (ws : List Name) : Prop :=
  ws.length = k ∧ ws.Subperm pool

def ValidOracle (o : Oracle) : Prop :=
  ∀ n pool k, k ≤ pool.length → SampleOf pool k (o n pool k)

/-- run_draw(conn, lottery_id, num_to_draw, candidates) from src/app.py.
Returns the winner list, the database after all of its writes, and the
next oracle call number. -/
def run_draw (o : Oracle) (n : Nat) (db : DB) (lid : Nat) (numToDraw : Int)
    (candidates : List Name) : List Name × DB × Nat :=
  let actual : Int := min numToDraw (candidates.length : Int)
  if actual ≤ 0 then ([], db, n)
  else
    let ws := o n candidates actual.toNat
    let currentRound := maxRound db lid + 1
    let db1 := insertWinners db lid ws currentRound
    let db2 := if currentRound = 1 then setCompleted db1 lid else db1
    let db3 := addLog db2 lid (LogMsg.drew currentRound ws)
    (ws, db3, n + 1)

/-- Due set of first draws: SELECT id, num_winners FROM lotteries WHERE
status = scheduled AND draw_time <= now (the cursor snapshot taken before
the loop body runs). -/
def dueLotteries (db : DB) (now : Int) : List Lottery :=
  db.lotteries.filter (fun l => decide (l.status = Status.scheduled ∧ l.drawTime ≤ now))

def duePairs (db : DB) (now : Int) : List (Nat × Int) :=
  (dueLotteries db now).map (fun l => (l.id, l.numWinners))

/-- Loop body of check_and_run_scheduled_draws: read the roster, and when
it is non-empty run the draw. -/
def scanDrawsStep (o : Oracle) (acc : DB × Nat) (item : Nat × Int) : DB × Nat :=
  let parts := participantNames acc.1 item.1
  if parts = [] then acc
  else
    let r := run_draw o acc.2 acc.1 item.1 item.2 parts
    (r.2.1, r.2.2)

def check_and_run_scheduled_draws (o : Oracle) (now : Int) (db : DB) (n : Nat) : DB × Nat :=
  (duePairs db now).foldl (scanDrawsStep o) (db, n)

/-- Python str.split on a comma: always at least one piece, the pieces
between the commas. -/
def splitComma : Name → List Name
  | [] => [[]]
  | c :: cs =>
    if c = ',' then [] :: splitComma cs
    else
      match splitComma cs with
      | [] => [[c]]
      | s :: rest => (c :: s) :: rest

/-- The join with a comma used when a scheduled redraw is persisted
(",".join(chosen)). -/
def joinComma : List Name → Name
  | [] => []
  | [s] => s
  | s :: s2 :: rest => s ++ ',' :: joinComma (s2 :: rest)

/-- Due redraw jobs: SELECT ... FROM scheduled_redraws WHERE
execution_time <= now (snapshot before the loop). -/
def dueRedraws (db : DB) (now : Int) : List RedrawJob :=
  db.redraws.filter (fun j => decide (j.executionTime ≤ now))

/-- Loop body of check_and_run_scheduled_redraws: decode the frozen
candidate string, run the draw when the decoded list is non-empty, then
delete the job row. -/
def scanRedrawsStep (o : Oracle) (acc : DB × Nat) (job : RedrawJob) : DB × Nat :=
  let cands := splitComma job.candidates
  let r := if cands = [] then acc
           else
             let t := run_draw o acc.2 acc.1 job.lotteryId job.numWinners cands
             (t.2.1, t.2.2)
  (deleteJob r.1 job.id, r.2)

def check_and_run_scheduled_redraws (o : Oracle) (now : Int) (db : DB) (n : Nat) : DB × Nat :=
  (dueRedraws db now).foldl (scanRedrawsStep o) (db, n)

/-- One scheduler tick as main performs it: first the scheduled first
draws, then the scheduled redraws. -/
def scan_and_run (o : Oracle) (now : Int) (db : DB) (n : Nat) : DB × Nat :=
  let r := check_and_run_scheduled_draws o now db n
  check_and_run_scheduled_redraws o now r.1 r.2

/-- The candidate computation of the re-draw admin branch of main:
cand = list(all participants); for each previous winner remove its first
occurrence from cand when present. -/
def computeEligible (db : DB) (lid : Nat) : List Name :=
  (winnerNames db lid).foldl (fun cand w => cand.erase w) (participantNames db lid)

inductive PlanError where
  | notCompleted
  | noCandidates
  | emptyChoice
  | timeNotFuture
  deriving DecidableEq

def nextJobId (db : DB) : Nat :=
  (db.redraws.map (fun j => j.id)).foldr max 0 + 1

/-- The re-draw admin action of main: only offered on a completed lottery
with a non-empty candidate pool; an empty chosen set or a scheduled time
not after now is rejected; otherwise either run_draw immediately or
insert a scheduled_redraws row with the comma-joined frozen candidates
and log the reservation. -/
def plan_redraw (o : Oracle) (n : Nat) (db : DB) (lid : Nat) (scheduledMode : Bool)
    (whenT now : Int) (chosen : List Name) (numR : Int) : Except PlanError (DB × Nat) :=
  if (getLottery db lid).map (fun l => l.status) ≠ some Status.completed then
    Except.error PlanError.notCompleted
  else if computeEligible db lid = [] then Except.error PlanError.noCandidates
  else if chosen = [] then Except.error PlanError.emptyChoice
  else if scheduledMode ∧ whenT ≤ now then Except.error PlanError.timeNotFuture
  else if scheduledMode then
    let jid := nextJobId db
    let db1 : DB := ⟨db.lotteries, db.participants, db.winners, db.logs,
      db.redraws ++ [⟨jid, lid, whenT, numR, joinComma chosen⟩]⟩
    Except.ok (addLog db1 lid (LogMsg.redrawScheduled chosen.length), n)
  else
    let r := run_draw o n db lid numR chosen
    Except.ok (r.2.1, r.2.2)

def nextLotteryId (db : DB) : Nat :=
  (db.lotteries.map (fun l => l.id)).foldr max 0 + 1

/-- The create admin action of main: empty title or empty roster is
rejected, a scheduled time not after now is rejected in scheduled mode;
otherwise the lottery row (status scheduled), the participant rows and a
creation log row are inserted. In immediate mode the draw time is now. -/
def create_lottery (db : DB) (title : Name) (scheduledMode : Bool) (drawT now : Int)
    (numWinners : Int) (names : List Name) : Except PlanError DB :=
  if title = [] ∨ names = [] then Except.error PlanError.emptyChoice
  else if scheduledMode ∧ drawT ≤ now then Except.error PlanError.timeNotFuture
  else
    let lid := nextLotteryId db
    let t := if scheduledMode then drawT else now
    let db1 : DB := ⟨db.lotteries ++ [⟨lid, title, t, numWinners, Status.scheduled⟩],
      db.participants ++ names.map (fun a => ⟨lid, a⟩),
      db.winners, db.logs, db.redraws⟩
    Except.ok (addLog db1 lid LogMsg.created)

/-- DELETE FROM lotteries WHERE id = ? with PRAGMA foreign_keys = ON and
ON DELETE CASCADE on every child table. -/
def delete_lottery (db : DB) (lid : Nat) : DB :=
  ⟨db.lotteries.filter (fun l => !(l.id == lid)),
   db.participants.filter (fun p => !(p.lotteryId == lid)),
   db.winners.filter (fun w => !(w.lotteryId == lid)),
   db.logs.filter (fun e => !(e.lotteryId == lid)),
   db.redraws.filter (fun j => !(j.lotteryId == lid))⟩

/-- The sequence of committed database states produced by one run_draw
call: the winner inserts together with the status update form the first
commit (conn.commit() at the end of run_draw), and the log row is a
second, separate commit (inside add_log). An early no-op return commits
nothing. -/
def run_draw_commits (o : Oracle) (n : Nat) (db : DB) (lid : Nat) (numToDraw : Int)
    (candidates : List Name) : List DB :=
  let actual : Int := min numToDraw (candidates.length : Int)
  if actual ≤ 0 then []
  else
    let ws := o n candidates actual.toNat
    let currentRound := maxRound db lid + 1
    let db1 := insertWinners db lid ws currentRound
    let c1 := if currentRound = 1 then setCompleted db1 lid else db1
    [c1, addLog c1 lid (LogMsg.drew currentRound ws)]

/-- The committed states while one due redraw job is executed by
check_and_run_scheduled_redraws: the commits of run_draw followed by the
commit of the job row deletion. -/
def redraw_task_commits (o : Oracle) (n : Nat) (db : DB) (job : RedrawJob) : List DB :=
  let cands := splitComma job.candidates
  let base := if cands = [] then []
              else run_draw_commits o n db job.lotteryId job.numWinners cands
  let dbAfter := if cands = [] then db
                 else (run_draw o n db job.lotteryId job.numWinners cands).2.1
  base ++ [deleteJob dbAfter job.id]

/-- One observable operation of the program. Each constructor carries the
side conditions under which the code path is taken: scans use a valid
random oracle, and the re-draw form only submits a subset (a sublist, in
display order) of the computed eligible candidates with a positive
winner count, as the multiselect and number widgets enforce. -/
inductive Step : DB → DB → Prop
  | create : ∀ (db : DB) (title : Name) (sm : Bool) (dt now nw : Int)
      (names : List Name) (db' : DB),
      create_lottery db title sm dt now nw names = Except.ok db' → Step db db'
  | scanDraws : ∀ (db : DB) (o : Oracle) (now : Int) (n : Nat) (db' : DB),
      ValidOracle o → (check_and_run_scheduled_draws o now db n).1 = db' → Step db db'
  | scanRedraws : ∀ (db : DB) (o : Oracle) (now : Int) (n : Nat) (db' : DB),
      ValidOracle o → (check_and_run_scheduled_redraws o now db n).1 = db' → Step db db'
  | planRedraw : ∀ (db : DB) (o : Oracle) (n : Nat) (lid : Nat) (sm : Bool)
      (whenT now : Int) (chosen : List Name) (numR : Int) (db' : DB) (nn : Nat),
      ValidOracle o → chosen.Sublist (computeEligible db lid) → 1 ≤ numR →
      plan_redraw o n db lid sm whenT now chosen numR = Except.ok (db', nn) → Step db db'
  | delete : ∀ (db : DB) (lid : Nat) (db' : DB),
      delete_lottery db lid = db' → Step db db'

/-- Database states reachable from the empty store through program
operations. -/
inductive Reachable : DB → Prop
  | init : Reachable DB.empty
  | step : ∀ (db db' : DB), Reachable db → Step db db' → Reachable db'

/-- The operations other than the execution of a frozen redraw job (used
to state the amended form of the no-double-win invariant). -/
inductive StepNoFrozen : DB → DB → Prop
  | create : ∀ (db : DB) (title : Name) (sm : Bool) (dt now nw : Int)
      (names : List Name) (db' : DB),
      create_lottery db title sm dt now nw names = Except.ok db' → StepNoFrozen db db'
  | scanDraws : ∀ (db : DB) (o : Oracle) (now : Int) (n : Nat) (db' : DB),
      ValidOracle o → (check_and_run_scheduled_draws o now db n).1 = db' → StepNoFrozen db db'
  | planRedraw : ∀ (db : DB) (o : Oracle) (n : Nat) (lid : Nat) (sm : Bool)
      (whenT now : Int) (chosen : List Name) (numR : Int) (db' : DB) (nn : Nat),
      ValidOracle o → chosen.Sublist (computeEligible db lid) → 1 ≤ numR →
      plan_redraw o n db lid sm whenT now chosen numR = Except.ok (db', nn) → StepNoFrozen db db'
  | delete : ∀ (db : DB) (lid : Nat) (db' : DB),
      delete_lottery db lid = db' → StepNoFrozen db db'

/-- One win per roster slot: for each lottery, no name is recorded as a
winner more often than it occurs on the roster. -/
def WinCountInv (db : DB) : Prop :=
  ∀ lid a, (winnerNames db lid).count a ≤ (participantNames db lid).count a

/-- Modelled from the spec: the candidate pool the spec says the
first-draw scanner passes to the Draw Executor — the full current roster
minus any names already recorded as winners for the lottery. The code
in check_and_run_scheduled_draws passes `participantNames` instead. -/
def firstDrawPoolSpec (db : DB) (lid : Nat) : List Name :=
  (participantNames db lid).diff (winnerNames db lid)

/-- Invariants maintained by every reachable database state. -/
structure GoodDB (db : DB) : Prop where
  rounds_pos : ∀ w ∈ db.winners, 1 ≤ w.drawRound
  sched_no_winners : ∀ l ∈ db.lotteries, l.status = Status.scheduled → winnersFor db l.id = []
  rounds_complete : ∀ lid r, 1 ≤ r → r ≤ maxRound db lid →
    ∃ w ∈ db.winners, w.lotteryId = lid ∧ w.drawRound = r
  ids_nodup : (db.lotteries.map (fun l => l.id)).Nodup
  winners_ref : ∀ w ∈ db.winners, ∃ l ∈ db.lotteries, l.id = w.lotteryId
  jobs_ref : ∀ j ∈ db.redraws, ∃ l ∈ db.lotteries, l.id = j.lotteryId
  jobs_completed : ∀ j ∈ db.redraws, ∀ l ∈ db.lotteries,
    l.id = j.lotteryId → l.status = Status.completed
  completed_winners : ∀ l ∈ db.lotteries, l.status = Status.completed → winnersFor db l.id ≠ []

/-- A deterministic valid oracle: the first k candidates. -/
def takeOracle : Oracle := fun _ pool k => pool.take k

/-- A deterministic valid oracle that skips the head of the pool: take k
from the pool rotated by one. -/
def rotOracle : Oracle := fun _ pool k => (pool.drop 1 ++ pool.take 1).take k

def nmA : Name := ['a']
def nmB : Name := ['b']
def nmT : Name := ['t']

/-- State after creating lottery 1 (title t, immediate draw at time 0,
one winner requested, roster [a, b]). -/
def dbT1 : DB :=
  ⟨[⟨1, nmT, 0, 1, Status.scheduled⟩], [⟨1, nmA⟩, ⟨1, nmB⟩], [], [⟨1, LogMsg.created⟩], []⟩

/-- State after the first-draw scan at time 0 drew b in round 1. -/
def dbT2 : DB :=
  ⟨[⟨1, nmT, 0, 1, Status.completed⟩], [⟨1, nmA⟩, ⟨1, nmB⟩], [⟨1, nmB, 1⟩],
   [⟨1, LogMsg.created⟩, ⟨1, LogMsg.drew 1 [nmB]⟩], []⟩

/-- State after a redraw over candidate a is scheduled for time 10. -/
def dbT3 : DB :=
  ⟨[⟨1, nmT, 0, 1, Status.completed⟩], [⟨1, nmA⟩, ⟨1, nmB⟩], [⟨1, nmB, 1⟩],
   [⟨1, LogMsg.created⟩, ⟨1, LogMsg.drew 1 [nmB]⟩, ⟨1, LogMsg.redrawScheduled 1⟩],
   [⟨1, 1, 10, 1, nmA⟩]⟩

/-- State after an immediate redraw at time 2 additionally drew a in
round 2 (the scheduled job over a is still pending). -/
def dbT4 : DB :=
  ⟨[⟨1, nmT, 0, 1, Status.completed⟩], [⟨1, nmA⟩, ⟨1, nmB⟩],
   [⟨1, nmB, 1⟩, ⟨1, nmA, 2⟩],
   [⟨1, LogMsg.created⟩, ⟨1, LogMsg.drew 1 [nmB]⟩, ⟨1, LogMsg.redrawScheduled 1⟩,
    ⟨1, LogMsg.drew 2 [nmA]⟩],
   [⟨1, 1, 10, 1, nmA⟩]⟩

/-- State after the redraw scan at time 10 executed the frozen job and
drew a again in round 3: the roster slot a has now won twice. -/
def dbT5 : DB :=
  ⟨[⟨1, nmT, 0, 1, Status.completed⟩], [⟨1, nmA⟩, ⟨1, nmB⟩],
   [⟨1, nmB, 1⟩, ⟨1, nmA, 2⟩, ⟨1, nmA, 3⟩],
   [⟨1, LogMsg.created⟩, ⟨1, LogMsg.drew 1 [nmB]⟩, ⟨1, LogMsg.redrawScheduled 1⟩,
    ⟨1, LogMsg.drew 2 [nmA]⟩, ⟨1, LogMsg.drew 3 [nmA]⟩],
   []⟩

/-- A concrete state outside the reachable set: lottery 1 is still
scheduled although a is already recorded as a round-1 winner. Used to
exhibit that the first-draw scan applies no winner filter. -/
def dbX : DB :=
  ⟨[⟨1, nmT, 0, 1, Status.scheduled⟩], [⟨1, nmA⟩, ⟨1, nmB⟩], [⟨1, nmA, 1⟩], [], []⟩

/-- The pending job row of dbT3. -/
def jobT : RedrawJob := ⟨1, 1, 10, 1, nmA⟩

/-! ### Basic lemmas about tables and helpers -/

theorem mem_winnersFor {db : DB} {lid : Nat} {w : WinnerRow} :
    w ∈ winnersFor db lid ↔ w ∈ db.winners ∧ w.lotteryId = lid := by
  simp [winnersFor, List.mem_filter]

theorem winnersFor_eq_nil {db : DB} {lid : Nat} :
    winnersFor db lid = [] ↔ ∀ w ∈ db.winners, w.lotteryId ≠ lid := by
  constructor
  · intro h w hw hl
    have hmem : w ∈ winnersFor db lid := mem_winnersFor.mpr ⟨hw, hl⟩
    rw [h] at hmem
    cases hmem
  · intro h
    unfold winnersFor
    rw [List.filter_eq_nil_iff]
    intro w hw
    simp [h w hw]

theorem le_foldr_max {l : List Nat} {a : Nat} (h : a ∈ l) : a ≤ l.foldr max 0 := by
  induction l with
  | nil => cases h
  | cons b t ih =>
    rcases List.mem_cons.mp h with rfl | h2
    · exact le_max_left _ _
    · exact le_trans (ih h2) (le_max_right _ _)

theorem foldr_max_append (l₁ l₂ : List Nat) :
    (l₁ ++ l₂).foldr max 0 = max (l₁.foldr max 0) (l₂.foldr max 0) := by
  induction l₁ with
  | nil => simp
  | cons b t ih => simp [ih, Nat.max_assoc]

theorem foldr_max_const {l : List Nat} {c : Nat} (hne : l ≠ []) (h : ∀ x ∈ l, x = c) :
    l.foldr max 0 = c := by
  induction l with
  | nil => exact absurd rfl hne
  | cons b t ih =>
    have hb : b = c := h b (List.mem_cons_self b t)
    cases t with
    | nil => simp [hb]
    | cons b2 t2 =>
      have ht := ih (by simp) (fun x hx => h x (List.mem_cons_of_mem _ hx))
      simp [hb, ht]

theorem maxRound_eq_zero {db : DB} {lid : Nat} (h : winnersFor db lid = []) :
    maxRound db lid = 0 := by
  simp [maxRound, h]

theorem mem_le_maxRound {db : DB} {lid : Nat} {w : WinnerRow} (hw : w ∈ winnersFor db lid) :
    w.drawRound ≤ maxRound db lid :=
  le_foldr_max (List.mem_map_of_mem _ hw)

theorem one_le_maxRound {db : DB} {lid : Nat} {w : WinnerRow} (hw : w ∈ winnersFor db lid)
    (h1 : 1 ≤ w.drawRound) : 1 ≤ maxRound db lid :=
  le_trans h1 (mem_le_maxRound hw)

/-! ### Field computations for the primitive writes -/

@[simp] theorem addLog_lotteries (db : DB) (lid : Nat) (m : LogMsg) :
    (addLog db lid m).lotteries = db.lotteries := rfl

@[simp] theorem addLog_participants (db : DB) (lid : Nat) (m : LogMsg) :
    (addLog db lid m).participants = db.participants := rfl

@[simp] theorem addLog_winners (db : DB) (lid : Nat) (m : LogMsg) :
    (addLog db lid m).winners = db.winners := rfl

@[simp] theorem addLog_logs (db : DB) (lid : Nat) (m : LogMsg) :
    (addLog db lid m).logs = db.logs ++ [⟨lid, m⟩] := rfl

@[simp] theorem addLog_redraws (db : DB) (lid : Nat) (m : LogMsg) :
    (addLog db lid m).redraws = db.redraws := rfl

@[simp] theorem setCompleted_lotteries (db : DB) (lid : Nat) :
    (setCompleted db lid).lotteries = completeIds [lid] db.lotteries := rfl

@[simp] theorem setCompleted_participants (db : DB) (lid : Nat) :
    (setCompleted db lid).participants = db.participants := rfl

@[simp] theorem setCompleted_winners (db : DB) (lid : Nat) :
    (setCompleted db lid).winners = db.winners := rfl

@[simp] theorem setCompleted_logs (db : DB) (lid : Nat) :
    (setCompleted db lid).logs = db.logs := rfl

@[simp] theorem setCompleted_redraws (db : DB) (lid : Nat) :
    (setCompleted db lid).redraws = db.redraws := rfl

@[simp] theorem insertWinners_lotteries (db : DB) (lid : Nat) (ws : List Name) (r : Nat) :
    (insertWinners db lid ws r).lotteries = db.lotteries := rfl

@[simp] theorem insertWinners_participants (db : DB) (lid : Nat) (ws : List Name) (r : Nat) :
    (insertWinners db lid ws r).participants = db.participants := rfl

@[simp] theorem insertWinners_winners (db : DB) (lid : Nat) (ws : List Name) (r : Nat) :
    (insertWinners db lid ws r).winners = db.winners ++ ws.map (fun a => ⟨lid, a, r⟩) := rfl

@[simp] theorem insertWinners_logs (db : DB) (lid : Nat) (ws : List Name) (r : Nat) :
    (insertWinners db lid ws r).logs = db.logs := rfl

@[simp] theorem insertWinners_redraws (db : DB) (lid : Nat) (ws : List Name) (r : Nat) :
    (insertWinners db lid ws r).redraws = db.redraws := rfl

@[simp] theorem deleteJob_lotteries (db : DB) (jid : Nat) :
    (deleteJob db jid).lotteries = db.lotteries := rfl

@[simp] theorem deleteJob_participants (db : DB) (jid : Nat) :
    (deleteJob db jid).participants = db.participants := rfl

@[simp] theorem deleteJob_winners (db : DB) (jid : Nat) :
    (deleteJob db jid).winners = db.winners := rfl

@[simp] theorem deleteJob_logs (db : DB) (jid : Nat) :
    (deleteJob db jid).logs = db.logs := rfl

@[simp] theorem deleteJob_redraws (db : DB) (jid : Nat) :
    (deleteJob db jid).redraws = db.redraws.filter (fun j => !(j.id == jid)) := rfl

@[simp] theorem winnersFor_addLog (db : DB) (lid : Nat) (m : LogMsg) (x : Nat) :
    winnersFor (addLog db lid m) x = winnersFor db x := rfl

@[simp] theorem winnersFor_setCompleted (db : DB) (lid x : Nat) :
    winnersFor (setCompleted db lid) x = winnersFor db x := rfl

@[simp] theorem winnersFor_deleteJob (db : DB) (jid x : Nat) :
    winnersFor (deleteJob db jid) x = winnersFor db x := rfl

@[simp] theorem participantNames_addLog (db : DB) (lid : Nat) (m : LogMsg) (x : Nat) :
    participantNames (addLog db lid m) x = participantNames db x := rfl

@[simp] theorem participantNames_setCompleted (db : DB) (lid x : Nat) :
    participantNames (setCompleted db lid) x = participantNames db x := rfl

@[simp] theorem participantNames_insertWinners (db : DB) (lid : Nat) (ws : List Name)
    (r : Nat) (x : Nat) : participantNames (insertWinners db lid ws r) x = participantNames db x := rfl

@[simp] theorem participantNames_deleteJob (db : DB) (jid x : Nat) :
    participantNames (deleteJob db jid) x = participantNames db x := rfl

@[simp] theorem maxRound_addLog (db : DB) (lid : Nat) (m : LogMsg) (x : Nat) :
    maxRound (addLog db lid m) x = maxRound db x := rfl

@[simp] theorem maxRound_setCompleted (db : DB) (lid x : Nat) :
    maxRound (setCompleted db lid) x = maxRound db x := rfl

@[simp] theorem maxRound_deleteJob (db : DB) (jid x : Nat) :
    maxRound (deleteJob db jid) x = maxRound db x := rfl

theorem filter_rows_map (ws : List Name) (lid r x : Nat) :
    (ws.map (fun a => (⟨lid, a, r⟩ : WinnerRow))).filter (fun w => w.lotteryId == x) =
      if x = lid then ws.map (fun a => (⟨lid, a, r⟩ : WinnerRow)) else [] := by
  induction ws with
  | nil => simp
  | cons a t ih =>
    by_cases h : x = lid
    · subst h
      simp only [List.map_cons, List.filter_cons]
      simp [ih]
    · simp only [List.map_cons, List.filter_cons]
      have : ((⟨lid, a, r⟩ : WinnerRow).lotteryId == x) = false := by
        simp
        omega
      simp [this, ih, h]

theorem winnersFor_insertWinners (db : DB) (lid : Nat) (ws : List Name) (r : Nat) (x : Nat) :
    winnersFor (insertWinners db lid ws r) x =
      winnersFor db x ++ (if x = lid then ws.map (fun a => (⟨lid, a, r⟩ : WinnerRow)) else []) := by
  simp [winnersFor, List.filter_append, filter_rows_map]

theorem maxRound_insertWinners_self {ws : List Name} (hws : ws ≠ []) (db : DB) (lid : Nat)
    (r : Nat) : maxRound (insertWinners db lid ws r) lid = max (maxRound db lid) r := by
  have h := winnersFor_insertWinners db lid ws r lid
  rw [if_pos rfl] at h
  unfold maxRound
  rw [h, List.map_append, foldr_max_append, List.map_map]
  congr 1
  exact foldr_max_const (by simpa using hws) (by simp)

theorem maxRound_insertWinners_other {x lid : Nat} (h : x ≠ lid) (db : DB) (ws : List Name)
    (r : Nat) : maxRound (insertWinners db lid ws r) x = maxRound db x := by
  unfold maxRound
  rw [winnersFor_insertWinners, if_neg h, List.append_nil]

/-! ### Lemmas about markDone and completeIds -/

@[simp] theorem markDone_id (s : List Nat) (l : Lottery) : (markDone s l).id = l.id := by
  unfold markDone
  split <;> rfl

@[simp] theorem markDone_title (s : List Nat) (l : Lottery) : (markDone s l).title = l.title := by
  unfold markDone
  split <;> rfl

@[simp] theorem markDone_drawTime (s : List Nat) (l : Lottery) :
    (markDone s l).drawTime = l.drawTime := by
  unfold markDone
  split <;> rfl

@[simp] theorem markDone_numWinners (s : List Nat) (l : Lottery) :
    (markDone s l).numWinners = l.numWinners := by
  unfold markDone
  split <;> rfl

theorem markDone_of_not_mem {s : List Nat} {l : Lottery} (h : l.id ∉ s) : markDone s l = l :=
  if_neg h

theorem markDone_status_of_mem {s : List Nat} {l : Lottery} (h : l.id ∈ s) :
    (markDone s l).status = Status.completed := by
  simp [markDone, h]

theorem markDone_completed {s : List Nat} {l : Lottery} (h : l.status = Status.completed) :
    (markDone s l).status = Status.completed := by
  unfold markDone
  split <;> simp [h]

theorem markDone_sched {s : List Nat} {l : Lottery}
    (h : (markDone s l).status = Status.scheduled) : markDone s l = l ∧ l.id ∉ s := by
  by_cases hm : l.id ∈ s
  · rw [markDone_status_of_mem hm] at h
    cases h
  · exact ⟨markDone_of_not_mem hm, hm⟩

@[simp] theorem completeIds_map_id (s : List Nat) (ls : List Lottery) :
    (completeIds s ls).map (fun l => l.id) = ls.map (fun l => l.id) := by
  unfold completeIds
  rw [List.map_map]
  exact List.map_congr_left (fun l _ => markDone_id s l)

theorem mem_completeIds {s : List Nat} {ls : List Lottery} {l' : Lottery} :
    l' ∈ completeIds s ls ↔ ∃ l ∈ ls, markDone s l = l' := by
  simp [completeIds, List.mem_map]

theorem markDone_mem_completeIds {s : List Nat} {ls : List Lottery} {l : Lottery}
    (h : l ∈ ls) : markDone s l ∈ completeIds s ls :=
  List.mem_map_of_mem _ h

theorem completeIds_nil (ls : List Lottery) : completeIds [] ls = ls := by
  unfold completeIds
  have h : ∀ l ∈ ls, markDone [] l = l := fun l _ => markDone_of_not_mem (by simp)
  rw [List.map_congr_left h]
  simp

theorem markDone_markDone (s t : List Nat) (l : Lottery) :
    markDone s (markDone t l) = markDone (t ++ s) l := by
  unfold markDone
  by_cases ht : l.id ∈ t
  · by_cases hs : l.id ∈ s <;> simp [ht, hs]
  · by_cases hs : l.id ∈ s <;> simp [ht, hs]

theorem completeIds_completeIds (s t : List Nat) (ls : List Lottery) :
    completeIds s (completeIds t ls) = completeIds (t ++ s) ls := by
  unfold completeIds
  rw [List.map_map]
  exact List.map_congr_left (fun l _ => markDone_markDone s t l)

theorem exists_id_completeIds {ls : List Lottery} {l : Lottery} (s : List Nat) (h : l ∈ ls) :
    ∃ l' ∈ completeIds s ls, l'.id = l.id ∧
      (l.status = Status.completed → l'.status = Status.completed) :=
  ⟨markDone s l, markDone_mem_completeIds h, markDone_id s l, fun hc => markDone_completed hc⟩

/-! ### Characterization of run_draw -/

theorem run_draw_noop {numToDraw : Int} {candidates : List Name}
    (h : min numToDraw (candidates.length : Int) ≤ 0) (o : Oracle) (n : Nat) (db : DB)
    (lid : Nat) : run_draw o n db lid numToDraw candidates = ([], db, n) := by
  unfold run_draw
  simp [h]

theorem run_draw_pos {numToDraw : Int} {candidates : List Name}
    (h : 0 < min numToDraw (candidates.length : Int)) (o : Oracle) (n : Nat) (db : DB)
    (lid : Nat) :
    run_draw o n db lid numToDraw candidates =
      (o n candidates (min numToDraw (candidates.length : Int)).toNat,
       addLog
         (if maxRound db lid + 1 = 1 then
            setCompleted
              (insertWinners db lid
                (o n candidates (min numToDraw (candidates.length : Int)).toNat)
                (maxRound db lid + 1)) lid
          else
            insertWinners db lid
              (o n candidates (min numToDraw (candidates.length : Int)).toNat)
              (maxRound db lid + 1))
         lid (LogMsg.drew (maxRound db lid + 1)
                (o n candidates (min numToDraw (candidates.length : Int)).toNat)),
       n + 1) := by
  unfold run_draw
  rw [if_neg (by omega)]

theorem run_draw_participants (o : Oracle) (n : Nat) (db : DB) (lid : Nat) (k : Int)
    (c : List Name) : ((run_draw o n db lid k c).2.1).participants = db.participants := by
  by_cases h : min k (c.length : Int) ≤ 0
  · rw [run_draw_noop h]
  · push_neg at h
    rw [run_draw_pos h]
    by_cases h0 : maxRound db lid + 1 = 1 <;> simp [h0]

theorem run_draw_redraws (o : Oracle) (n : Nat) (db : DB) (lid : Nat) (k : Int)
    (c : List Name) : ((run_draw o n db lid k c).2.1).redraws = db.redraws := by
  by_cases h : min k (c.length : Int) ≤ 0
  · rw [run_draw_noop h]
  · push_neg at h
    rw [run_draw_pos h]
    by_cases h0 : maxRound db lid + 1 = 1 <;> simp [h0]

theorem run_draw_winners {k : Int} {c : List Name} (h : 0 < min k (c.length : Int)) (o : Oracle)
    (n : Nat) (db : DB) (lid : Nat) :
    ((run_draw o n db lid k c).2.1).winners =
      db.winners ++ (o n c (min k (c.length : Int)).toNat).map
        (fun a => (⟨lid, a, maxRound db lid + 1⟩ : WinnerRow)) := by
  rw [run_draw_pos h]
  by_cases h0 : maxRound db lid + 1 = 1 <;> simp [h0]

theorem run_draw_lotteries (o : Oracle) (n : Nat) (db : DB) (lid : Nat) (k : Int)
    (c : List Name) :
    ∃ S : List Nat,
      ((run_draw o n db lid k c).2.1).lotteries = completeIds S db.lotteries := by
  by_cases h : min k (c.length : Int) ≤ 0
  · exact ⟨[], by rw [run_draw_noop h]; exact (completeIds_nil db.lotteries).symm⟩
  · push_neg at h
    by_cases h0 : maxRound db lid + 1 = 1
    · exact ⟨[lid], by rw [run_draw_pos h]; simp [h0]⟩
    · exact ⟨[], by rw [run_draw_pos h]; simp [h0, completeIds_nil]⟩

theorem run_draw_lotteries_of_pos {db : DB} {lid : Nat} (h0 : maxRound db lid ≠ 0) (o : Oracle)
    (n : Nat) (k : Int) (c : List Name) :
    ((run_draw o n db lid k c).2.1).lotteries = db.lotteries := by
  by_cases h : min k (c.length : Int) ≤ 0
  · rw [run_draw_noop h]
  · push_neg at h
    rw [run_draw_pos h]
    have h1 : ¬ (maxRound db lid + 1 = 1) := by omega
    simp [h1]

theorem winnersFor_run_draw_other {x lid : Nat} (h : x ≠ lid) (o : Oracle) (n : Nat) (db : DB)
    (k : Int) (c : List Name) :
    winnersFor (run_draw o n db lid k c).2.1 x = winnersFor db x := by
  by_cases hk : min k (c.length : Int) ≤ 0
  · rw [run_draw_noop hk]
  · push_neg at hk
    rw [run_draw_pos hk]
    by_cases h0 : maxRound db lid + 1 = 1 <;>
      simp [h0, winnersFor, winnersFor_insertWinners, List.filter_append, filter_rows_map, h]

theorem winnersFor_run_draw_self {k : Int} {c : List Name} (h : 0 < min k (c.length : Int))
    (o : Oracle) (n : Nat) (db : DB) (lid : Nat) :
    winnersFor (run_draw o n db lid k c).2.1 lid =
      winnersFor db lid ++ (o n c (min k (c.length : Int)).toNat).map
        (fun a => (⟨lid, a, maxRound db lid + 1⟩ : WinnerRow)) := by
  have hw := run_draw_winners h o n db lid
  unfold winnersFor
  rw [hw, List.filter_append, filter_rows_map, if_pos rfl]

theorem maxRound_run_draw_other {x lid : Nat} (h : x ≠ lid) (o : Oracle) (n : Nat) (db : DB)
    (k : Int) (c : List Name) :
    maxRound (run_draw o n db lid k c).2.1 x = maxRound db x := by
  unfold maxRound
  rw [winnersFor_run_draw_other h]

/-! ### Sample facts -/

theorem sample_of_valid {o : Oracle} (hv : ValidOracle o) {k : Int} {c : List Name}
    (h : 0 < min k (c.length : Int)) (n : Nat) :
    SampleOf c (min k (c.length : Int)).toNat (o n c (min k (c.length : Int)).toNat) := by
  apply hv
  have h2 : min k (c.length : Int) ≤ (c.length : Int) := min_le_right _ _
  omega

theorem sample_ne_nil {pool : List Name} {k : Nat} {ws : List Name} (hs : SampleOf pool k ws)
    (hk : 0 < k) : ws ≠ [] := by
  intro h
  rw [h] at hs
  have := hs.1
  simp at this
  omega

theorem sample_count_le {pool : List Name} {k : Nat} {ws : List Name} (hs : SampleOf pool k ws)
    (a : Name) : ws.count a ≤ pool.count a := by
  unfold List.count
  exact hs.2.countP_le _

theorem foldr_max_map_const {α : Type} {l : List α} (c : Nat) (h : l ≠ []) :
    (l.map (fun _ => c)).foldr max 0 = c :=
  foldr_max_const (by simpa using h) (by simp)

theorem maxRound_run_draw_self {o : Oracle} {k : Int} {c : List Name} {n : Nat}
    (hne : o n c (min k (c.length : Int)).toNat ≠ [])
    (h : 0 < min k (c.length : Int)) (db : DB) (lid : Nat) :
    maxRound (run_draw o n db lid k c).2.1 lid = maxRound db lid + 1 := by
  have hwf := winnersFor_run_draw_self h o n db lid
  show ((winnersFor (run_draw o n db lid k c).2.1 lid).map (fun w => w.drawRound)).foldr max 0 = _
  rw [hwf, List.map_append, foldr_max_append, List.map_map]
  have h2 : ((o n c (min k (c.length : Int)).toNat).map
      (fun a => ((fun w => w.drawRound) ∘ fun a => (⟨lid, a, maxRound db lid + 1⟩ : WinnerRow)) a)).foldr max 0
      = maxRound db lid + 1 := by
    apply foldr_max_const
    · simpa using hne
    · simp [Function.comp]
  rw [show ((fun w => w.drawRound) ∘ fun a => (⟨lid, a, maxRound db lid + 1⟩ : WinnerRow)) =
        (fun _ => maxRound db lid + 1) from rfl] at h2 ⊢
  rw [h2]
  show max (maxRound db lid) (maxRound db lid + 1) = maxRound db lid + 1
  omega

theorem run_draw_good {db : DB} (hg : GoodDB db) {o : Oracle} (hv : ValidOracle o)
    {lid : Nat} (hex : ∃ l ∈ db.lotteries, l.id = lid) (n : Nat) (k : Int) (c : List Name) :
    GoodDB (run_draw o n db lid k c).2.1 := by
  by_cases hk : min k (c.length : Int) ≤ 0
  · rw [run_draw_noop hk]
    exact hg
  push_neg at hk
  have hs : SampleOf c (min k (c.length : Int)).toNat (o n c (min k (c.length : Int)).toNat) :=
    sample_of_valid hv hk n
  have hne : o n c (min k (c.length : Int)).toNat ≠ [] := sample_ne_nil hs (by omega)
  set d := (run_draw o n db lid k c).2.1 with hd
  set m := maxRound db lid with hm
  set ws := o n c (min k (c.length : Int)).toNat with hws
  have hW : d.winners = db.winners ++ ws.map (fun a => (⟨lid, a, m + 1⟩ : WinnerRow)) :=
    run_draw_winners hk o n db lid
  have hP : d.participants = db.participants := run_draw_participants o n db lid k c
  have hR : d.redraws = db.redraws := run_draw_redraws o n db lid k c
  have hwfS : winnersFor d lid = winnersFor db lid ++ ws.map (fun a => (⟨lid, a, m + 1⟩ : WinnerRow)) :=
    winnersFor_run_draw_self hk o n db lid
  have hwfO : ∀ x, x ≠ lid → winnersFor d x = winnersFor db x :=
    fun x hx => winnersFor_run_draw_other hx o n db k c
  have hmaxS : maxRound d lid = m + 1 := maxRound_run_draw_self hne hk db lid
  have hmaxO : ∀ x, x ≠ lid → maxRound d x = maxRound db x :=
    fun x hx => maxRound_run_draw_other hx o n db k c
  have hLot : (m = 0 ∧ d.lotteries = completeIds [lid] db.lotteries) ∨
      (m ≠ 0 ∧ d.lotteries = db.lotteries) := by
    by_cases h0 : m = 0
    · refine Or.inl ⟨h0, ?_⟩
      rw [hd, run_draw_pos hk]
      have h1 : maxRound db lid + 1 = 1 := by omega
      simp [h1]
    · exact Or.inr ⟨h0, run_draw_lotteries_of_pos (by rw [← hm]; exact h0) o n k c⟩
  refine GoodDB.mk ?_ ?_ ?_ ?_ ?_ ?_ ?_ ?_
  · -- rounds_pos
    intro w hw
    rw [hW] at hw
    rcases List.mem_append.mp hw with h1 | h1
    · exact hg.rounds_pos w h1
    · rcases List.mem_map.mp h1 with ⟨a, _, rfl⟩
      exact Nat.succ_le_succ (Nat.zero_le m)
  · -- sched_no_winners
    intro l' hl' hsch
    rcases hLot with ⟨h0, hL⟩ | ⟨h0, hL⟩
    · rw [hL] at hl'
      obtain ⟨l0, hl0, hmk⟩ := mem_completeIds.mp hl'
      have hsch0 : (markDone [lid] l0).status = Status.scheduled := by rw [hmk]; exact hsch
      obtain ⟨heq, hnot⟩ := markDone_sched hsch0
      have hl'eq : l' = l0 := by rw [← hmk, heq]
      have hid : l0.id ≠ lid := by simpa using hnot
      rw [hl'eq, hwfO l0.id hid]
      exact hg.sched_no_winners l0 hl0 (by rw [← hl'eq]; exact hsch)
    · rw [hL] at hl'
      have h1 := hg.sched_no_winners l' hl' hsch
      by_cases hid : l'.id = lid
      · rw [hid] at h1
        exact absurd (by rw [hm]; exact maxRound_eq_zero h1) h0
      · rw [hwfO l'.id hid]
        exact h1
  · -- rounds_complete
    intro x r h1 h2
    by_cases hx : x = lid
    · subst hx
      rw [hmaxS] at h2
      by_cases hr : r ≤ m
      · obtain ⟨w, hw, hwl, hwr⟩ := hg.rounds_complete x r h1 hr
        exact ⟨w, by rw [hW]; exact List.mem_append_left _ hw, hwl, hwr⟩
      · have hreq : r = m + 1 := by omega
        obtain ⟨a, ha⟩ := List.exists_mem_of_ne_nil ws hne
        refine ⟨⟨x, a, m + 1⟩, ?_, rfl, by rw [hreq]⟩
        rw [hW]
        exact List.mem_append_right _ (List.mem_map_of_mem _ ha)
    · rw [hmaxO x hx] at h2
      obtain ⟨w, hw, hwl, hwr⟩ := hg.rounds_complete x r h1 h2
      exact ⟨w, by rw [hW]; exact List.mem_append_left _ hw, hwl, hwr⟩
  · -- ids_nodup
    rcases hLot with ⟨h0, hL⟩ | ⟨h0, hL⟩
    · rw [hL, completeIds_map_id]
      exact hg.ids_nodup
    · rw [hL]
      exact hg.ids_nodup
  · -- winners_ref
    intro w hw
    rw [hW] at hw
    have hidw : ∃ l ∈ db.lotteries, l.id = w.lotteryId := by
      rcases List.mem_append.mp hw with h1 | h1
      · exact hg.winners_ref w h1
      · rcases List.mem_map.mp h1 with ⟨a, _, rfl⟩
        exact hex
    obtain ⟨l0, hl0, hid0⟩ := hidw
    rcases hLot with ⟨h0, hL⟩ | ⟨h0, hL⟩
    · rw [hL]
      obtain ⟨l', hl', hid', _⟩ := exists_id_completeIds [lid] hl0
      exact ⟨l', hl', by rw [hid', hid0]⟩
    · rw [hL]
      exact ⟨l0, hl0, hid0⟩
  · -- jobs_ref
    intro j hj
    rw [hR] at hj
    obtain ⟨l0, hl0, hid0⟩ := hg.jobs_ref j hj
    rcases hLot with ⟨h0, hL⟩ | ⟨h0, hL⟩
    · rw [hL]
      obtain ⟨l', hl', hid', _⟩ := exists_id_completeIds [lid] hl0
      exact ⟨l', hl', by rw [hid', hid0]⟩
    · rw [hL]
      exact ⟨l0, hl0, hid0⟩
  · -- jobs_completed
    intro j hj l' hl' hid
    rw [hR] at hj
    rcases hLot with ⟨h0, hL⟩ | ⟨h0, hL⟩
    · rw [hL] at hl'
      obtain ⟨l0, hl0, hmk⟩ := mem_completeIds.mp hl'
      have hid0 : l0.id = j.lotteryId := by rw [← hid, ← hmk, markDone_id]
      have hc := hg.jobs_completed j hj l0 hl0 hid0
      rw [← hmk]
      exact markDone_completed hc
    · rw [hL] at hl'
      exact hg.jobs_completed j hj l' hl' hid
  · -- completed_winners
    intro l' hl' hc
    rcases hLot with ⟨h0, hL⟩ | ⟨h0, hL⟩
    · rw [hL] at hl'
      obtain ⟨l0, hl0, hmk⟩ := mem_completeIds.mp hl'
      by_cases hid : l0.id = lid
      · have hidEq : winnersFor d l'.id = winnersFor d lid := by
          rw [← hmk, markDone_id, hid]
        rw [hidEq, hwfS]
        intro hnil
        rcases List.append_eq_nil.mp hnil with ⟨_, h2⟩
        exact hne (List.map_eq_nil_iff.mp h2)
      · have hmkeq : markDone [lid] l0 = l0 := markDone_of_not_mem (by simpa using hid)
        have hl'eq : l' = l0 := by rw [← hmk, hmkeq]
        have hcw := hg.completed_winners l0 hl0 (by rw [← hl'eq]; exact hc)
        rw [hl'eq, hwfO l0.id hid]
        exact hcw
    · rw [hL] at hl'
      have hcw := hg.completed_winners l' hl' hc
      by_cases hid : l'.id = lid
      · rw [hid, hwfS]
        intro hnil
        rcases List.append_eq_nil.mp hnil with ⟨hx, _⟩
        rw [hid] at hcw
        exact hcw hx
      · rw [hwfO l'.id hid]
        exact hcw

/-! ### Preservation of the invariants by the other operations -/

theorem winnersFor_delete (db : DB) (lid x : Nat) :
    winnersFor (delete_lottery db lid) x = if x = lid then [] else winnersFor db x := by
  unfold winnersFor delete_lottery
  rw [List.filter_filter]
  by_cases h : x = lid
  · rw [if_pos h, List.filter_eq_nil_iff]
    intro w _
    simp [h]
  · rw [if_neg h]
    apply List.filter_congr
    intro w _
    by_cases hw : w.lotteryId = x
    · simp [hw, h]
    · simp [hw]

theorem maxRound_delete (db : DB) (lid x : Nat) :
    maxRound (delete_lottery db lid) x = if x = lid then 0 else maxRound db x := by
  unfold maxRound
  rw [winnersFor_delete]
  by_cases h : x = lid <;> simp [h]

theorem good_empty : GoodDB DB.empty := by
  refine GoodDB.mk ?_ ?_ ?_ ?_ ?_ ?_ ?_ ?_
  · intro w hw
    cases hw
  · intro l hl
    cases hl
  · intro lid r h1 h2
    have : maxRound DB.empty lid = 0 := rfl
    omega
  · simp [DB.empty]
  · intro w hw
    cases hw
  · intro j hj
    cases hj
  · intro j hj
    cases hj
  · intro l hl
    cases hl

theorem lt_nextLotteryId {db : DB} {l : Lottery} (h : l ∈ db.lotteries) :
    l.id < nextLotteryId db :=
  Nat.lt_succ_of_le (le_foldr_max (List.mem_map_of_mem _ h))

theorem delete_good {db : DB} (hg : GoodDB db) (lid : Nat) : GoodDB (delete_lottery db lid) := by
  have hmemL : ∀ l : Lottery, l ∈ (delete_lottery db lid).lotteries ↔
      l ∈ db.lotteries ∧ l.id ≠ lid := by
    intro l
    simp [delete_lottery, List.mem_filter]
  have hmemW : ∀ w : WinnerRow, w ∈ (delete_lottery db lid).winners ↔
      w ∈ db.winners ∧ w.lotteryId ≠ lid := by
    intro w
    simp [delete_lottery, List.mem_filter]
  have hmemJ : ∀ j : RedrawJob, j ∈ (delete_lottery db lid).redraws ↔
      j ∈ db.redraws ∧ j.lotteryId ≠ lid := by
    intro j
    simp [delete_lottery, List.mem_filter]
  refine GoodDB.mk ?_ ?_ ?_ ?_ ?_ ?_ ?_ ?_
  · intro w hw
    exact hg.rounds_pos w ((hmemW w).mp hw).1
  · intro l hl hsch
    obtain ⟨hl0, hne⟩ := (hmemL l).mp hl
    rw [winnersFor_delete, if_neg hne]
    exact hg.sched_no_winners l hl0 hsch
  · intro x r h1 h2
    rw [maxRound_delete] at h2
    by_cases hx : x = lid
    · rw [if_pos hx] at h2
      omega
    · rw [if_neg hx] at h2
      obtain ⟨w, hw, hwl, hwr⟩ := hg.rounds_complete x r h1 h2
      refine ⟨w, (hmemW w).mpr ⟨hw, ?_⟩, hwl, hwr⟩
      rw [hwl]
      exact hx
  · have hsub : (delete_lottery db lid).lotteries.Sublist db.lotteries :=
      List.filter_sublist _
    exact (hsub.map (fun l => l.id)).nodup hg.ids_nodup
  · intro w hw
    obtain ⟨hw0, hne⟩ := (hmemW w).mp hw
    obtain ⟨l0, hl0, hid0⟩ := hg.winners_ref w hw0
    refine ⟨l0, (hmemL l0).mpr ⟨hl0, ?_⟩, hid0⟩
    rw [hid0]
    exact hne
  · intro j hj
    obtain ⟨hj0, hne⟩ := (hmemJ j).mp hj
    obtain ⟨l0, hl0, hid0⟩ := hg.jobs_ref j hj0
    refine ⟨l0, (hmemL l0).mpr ⟨hl0, ?_⟩, hid0⟩
    rw [hid0]
    exact hne
  · intro j hj l hl hid
    exact hg.jobs_completed j ((hmemJ j).mp hj).1 l ((hmemL l).mp hl).1 hid
  · intro l hl hc
    obtain ⟨hl0, hne⟩ := (hmemL l).mp hl
    rw [winnersFor_delete, if_neg hne]
    exact hg.completed_winners l hl0 hc

theorem deleteJob_good {db : DB} (hg : GoodDB db) (jid : Nat) : GoodDB (deleteJob db jid) := by
  have hmemJ : ∀ j : RedrawJob, j ∈ (deleteJob db jid).redraws → j ∈ db.redraws := by
    intro j hj
    simp only [deleteJob_redraws] at hj
    exact List.mem_of_mem_filter hj
  refine GoodDB.mk ?_ ?_ ?_ ?_ ?_ ?_ ?_ ?_
  · exact hg.rounds_pos
  · intro l hl hsch
    rw [winnersFor_deleteJob]
    exact hg.sched_no_winners l hl hsch
  · intro x r h1 h2
    rw [maxRound_deleteJob] at h2
    exact hg.rounds_complete x r h1 h2
  · exact hg.ids_nodup
  · exact hg.winners_ref
  · intro j hj
    exact hg.jobs_ref j (hmemJ j hj)
  · intro j hj l hl hid
    exact hg.jobs_completed j (hmemJ j hj) l hl hid
  · intro l hl hc
    rw [winnersFor_deleteJob]
    exact hg.completed_winners l hl hc

theorem create_shape_good {db : DB} (hg : GoodDB db) (title : Name) (t nw : Int)
    (names : List Name) :
    GoodDB (addLog
      ⟨db.lotteries ++ [⟨nextLotteryId db, title, t, nw, Status.scheduled⟩],
       db.participants ++ names.map (fun a => ⟨nextLotteryId db, a⟩),
       db.winners, db.logs, db.redraws⟩ (nextLotteryId db) LogMsg.created) := by
  set nid := nextLotteryId db with hnid
  have hfreshW : ∀ w ∈ db.winners, w.lotteryId ≠ nid := by
    intro w hw heq
    obtain ⟨l0, hl0, hid0⟩ := hg.winners_ref w hw
    have := lt_nextLotteryId hl0
    omega
  have hfreshJ : ∀ j ∈ db.redraws, j.lotteryId ≠ nid := by
    intro j hj heq
    obtain ⟨l0, hl0, hid0⟩ := hg.jobs_ref j hj
    have := lt_nextLotteryId hl0
    omega
  refine GoodDB.mk ?_ ?_ ?_ ?_ ?_ ?_ ?_ ?_
  · exact hg.rounds_pos
  · intro l hl hsch
    simp only [addLog_lotteries] at hl
    rcases List.mem_append.mp hl with h0 | h0
    · exact hg.sched_no_winners l h0 hsch
    · have hle : l = ⟨nid, title, t, nw, Status.scheduled⟩ := by simpa using h0
      rw [hle]
      exact winnersFor_eq_nil.mpr hfreshW
  · exact hg.rounds_complete
  · simp only [addLog_lotteries, List.map_append]
    rw [List.nodup_append]
    refine ⟨hg.ids_nodup, by simp, ?_⟩
    intro a ha
    rcases List.mem_map.mp ha with ⟨l0, hl0, rfl⟩
    have := lt_nextLotteryId hl0
    simp
    omega
  · intro w hw
    obtain ⟨l0, hl0, hid0⟩ := hg.winners_ref w hw
    exact ⟨l0, List.mem_append_left _ hl0, hid0⟩
  · intro j hj
    obtain ⟨l0, hl0, hid0⟩ := hg.jobs_ref j hj
    exact ⟨l0, List.mem_append_left _ hl0, hid0⟩
  · intro j hj l hl hid
    simp only [addLog_lotteries] at hl
    rcases List.mem_append.mp hl with h0 | h0
    · exact hg.jobs_completed j hj l h0 hid
    · have hle : l = ⟨nid, title, t, nw, Status.scheduled⟩ := by simpa using h0
      exact absurd hid.symm (by rw [hle]; exact hfreshJ j hj)
  · intro l hl hc
    simp only [addLog_lotteries] at hl
    rcases List.mem_append.mp hl with h0 | h0
    · exact hg.completed_winners l h0 hc
    · have hle : l = ⟨nid, title, t, nw, Status.scheduled⟩ := by simpa using h0
      rw [hle] at hc
      cases hc

theorem create_good {db db' : DB} (hg : GoodDB db) {title : Name} {sm : Bool}
    {dt now nw : Int} {names : List Name}
    (h : create_lottery db title sm dt now nw names = Except.ok db') : GoodDB db' := by
  unfold create_lottery at h
  by_cases h1 : title = [] ∨ names = []
  · rw [if_pos h1] at h
    cases h
  rw [if_neg h1] at h
  by_cases h2 : sm = true ∧ dt ≤ now
  · rw [if_pos h2] at h
    cases h
  rw [if_neg h2] at h
  simp only [Except.ok.injEq] at h
  subst h
  by_cases hsm : sm = true
  · simpa [hsm] using create_shape_good hg title dt nw names
  · simpa [hsm] using create_shape_good hg title now nw names

theorem getLottery_mem {db : DB} {lid : Nat} {l : Lottery} (h : getLottery db lid = some l) :
    l ∈ db.lotteries ∧ l.id = lid := by
  refine ⟨List.mem_of_find?_eq_some h, ?_⟩
  have := List.find?_some h
  simpa using this

theorem lotteryStatus_completed {db : DB} {lid : Nat}
    (h : (getLottery db lid).map (fun l => l.status) = some Status.completed) :
    ∃ l ∈ db.lotteries, l.id = lid ∧ l.status = Status.completed := by
  cases hfind : getLottery db lid with
  | none =>
    rw [hfind] at h
    cases h
  | some l =>
    rw [hfind] at h
    simp only [Option.map_some', Option.some.injEq] at h
    obtain ⟨hmem, hid⟩ := getLottery_mem hfind
    exact ⟨l, hmem, hid, h⟩

theorem plan_good {db db' : DB} (hg : GoodDB db) {o : Oracle} (hv : ValidOracle o)
    {n nn : Nat} {lid : Nat} {sm : Bool} {whenT now : Int} {chosen : List Name} {numR : Int}
    (h : plan_redraw o n db lid sm whenT now chosen numR = Except.ok (db', nn)) :
    GoodDB db' := by
  unfold plan_redraw at h
  by_cases h1 : (getLottery db lid).map (fun l => l.status) ≠ some Status.completed
  · rw [if_pos h1] at h
    cases h
  rw [if_neg h1] at h
  push_neg at h1
  obtain ⟨l, hmem, hid, hstat⟩ := lotteryStatus_completed h1
  by_cases h2 : computeEligible db lid = []
  · rw [if_pos h2] at h
    cases h
  rw [if_neg h2] at h
  by_cases h3 : chosen = []
  · rw [if_pos h3] at h
    cases h
  rw [if_neg h3] at h
  by_cases h4 : sm = true ∧ whenT ≤ now
  · rw [if_pos h4] at h
    cases h
  rw [if_neg h4] at h
  by_cases h5 : sm = true
  · rw [if_pos h5] at h
    simp only [Except.ok.injEq, Prod.mk.injEq] at h
    obtain ⟨hdb, hn⟩ := h
    subst hdb
    refine GoodDB.mk ?_ ?_ ?_ ?_ ?_ ?_ ?_ ?_
    · exact hg.rounds_pos
    · intro l0 hl0 hsch
      exact hg.sched_no_winners l0 hl0 hsch
    · exact hg.rounds_complete
    · exact hg.ids_nodup
    · exact hg.winners_ref
    · intro j hj
      simp only [addLog_redraws] at hj
      rcases List.mem_append.mp hj with h0 | h0
      · exact hg.jobs_ref j h0
      · have hje : j = ⟨nextJobId db, lid, whenT, numR, joinComma chosen⟩ := by simpa using h0
        exact ⟨l, hmem, by rw [hje]; exact hid⟩
    · intro j hj l0 hl0 hid0
      simp only [addLog_redraws] at hj
      rcases List.mem_append.mp hj with h0 | h0
      · exact hg.jobs_completed j h0 l0 hl0 hid0
      · have hje : j = ⟨nextJobId db, lid, whenT, numR, joinComma chosen⟩ := by simpa using h0
        have hl0id : l0.id = lid := by rw [hid0, hje]
        have hl0l : l0 = l := by
          apply List.inj_on_of_nodup_map hg.ids_nodup hl0 hmem
          rw [hl0id, hid]
        rw [hl0l]
        exact hstat
    · intro l0 hl0 hc
      exact hg.completed_winners l0 hl0 hc
  · rw [if_neg h5] at h
    simp only [Except.ok.injEq, Prod.mk.injEq] at h
    obtain ⟨hdb, hn⟩ := h
    subst hdb
    exact run_draw_good hg hv ⟨l, hmem, hid⟩ n numR chosen

/-! ### The invariants hold in every reachable state -/

theorem run_draw_exists_id (o : Oracle) (n : Nat) (db : DB) (lid : Nat) (k : Int)
    (c : List Name) {x : Nat} (h : ∃ l ∈ db.lotteries, l.id = x) :
    ∃ l ∈ ((run_draw o n db lid k c).2.1).lotteries, l.id = x := by
  obtain ⟨l0, hl0, hid⟩ := h
  obtain ⟨S, hS⟩ := run_draw_lotteries o n db lid k c
  rw [hS]
  obtain ⟨l', hl', hid', _⟩ := exists_id_completeIds S hl0
  exact ⟨l', hl', by rw [hid', hid]⟩

theorem scanDrawsStep_good {acc : DB × Nat} (hg : GoodDB acc.1) {o : Oracle}
    (hv : ValidOracle o) {item : Nat × Int} (hex : ∃ l ∈ acc.1.lotteries, l.id = item.1) :
    GoodDB (scanDrawsStep o acc item).1 := by
  simp only [scanDrawsStep]
  by_cases hp : participantNames acc.1 item.1 = []
  · rw [if_pos hp]
    exact hg
  · rw [if_neg hp]
    exact run_draw_good hg hv hex acc.2 item.2 (participantNames acc.1 item.1)

theorem scanDrawsStep_exists_id (o : Oracle) (acc : DB × Nat) (item : Nat × Int) {x : Nat}
    (h : ∃ l ∈ acc.1.lotteries, l.id = x) :
    ∃ l ∈ (scanDrawsStep o acc item).1.lotteries, l.id = x := by
  simp only [scanDrawsStep]
  by_cases hp : participantNames acc.1 item.1 = []
  · rw [if_pos hp]
    exact h
  · rw [if_neg hp]
    exact run_draw_exists_id _ _ _ _ _ _ h

theorem scanDraws_fold_good {o : Oracle} (hv : ValidOracle o) :
    ∀ (items : List (Nat × Int)) (db : DB) (n : Nat), GoodDB db →
    (∀ x ∈ items, ∃ l ∈ db.lotteries, l.id = x.1) →
    GoodDB ((items.foldl (scanDrawsStep o) (db, n)).1) := by
  intro items
  induction items with
  | nil =>
    intro db n hg _
    exact hg
  | cons x t ih =>
    intro db n hg hids
    rw [List.foldl_cons]
    have hg1 : GoodDB (scanDrawsStep o (db, n) x).1 :=
      scanDrawsStep_good hg hv (hids x (List.mem_cons_self x t))
    have hids1 : ∀ y ∈ t, ∃ l ∈ (scanDrawsStep o (db, n) x).1.lotteries, l.id = y.1 :=
      fun y hy => scanDrawsStep_exists_id o (db, n) x (hids y (List.mem_cons_of_mem _ hy))
    exact ih (scanDrawsStep o (db, n) x).1 (scanDrawsStep o (db, n) x).2 hg1 hids1

theorem scanRedrawsStep_good {acc : DB × Nat} (hg : GoodDB acc.1) {o : Oracle}
    (hv : ValidOracle o) {job : RedrawJob}
    (hex : ∃ l ∈ acc.1.lotteries, l.id = job.lotteryId) :
    GoodDB (scanRedrawsStep o acc job).1 := by
  simp only [scanRedrawsStep]
  by_cases hc : splitComma job.candidates = []
  · rw [if_pos hc]
    exact deleteJob_good hg _
  · rw [if_neg hc]
    exact deleteJob_good (run_draw_good hg hv hex _ _ _) _

theorem scanRedrawsStep_exists_id (o : Oracle) (acc : DB × Nat) (job : RedrawJob) {x : Nat}
    (h : ∃ l ∈ acc.1.lotteries, l.id = x) :
    ∃ l ∈ (scanRedrawsStep o acc job).1.lotteries, l.id = x := by
  simp only [scanRedrawsStep]
  by_cases hc : splitComma job.candidates = []
  · rw [if_pos hc]
    simpa using h
  · rw [if_neg hc]
    simpa using run_draw_exists_id o acc.2 acc.1 job.lotteryId job.numWinners
      (splitComma job.candidates) h

theorem scanRedraws_fold_good {o : Oracle} (hv : ValidOracle o) :
    ∀ (tasks : List RedrawJob) (db : DB) (n : Nat), GoodDB db →
    (∀ j ∈ tasks, ∃ l ∈ db.lotteries, l.id = j.lotteryId) →
    GoodDB ((tasks.foldl (scanRedrawsStep o) (db, n)).1) := by
  intro tasks
  induction tasks with
  | nil =>
    intro db n hg _
    exact hg
  | cons x t ih =>
    intro db n hg hids
    rw [List.foldl_cons]
    have hg1 : GoodDB (scanRedrawsStep o (db, n) x).1 :=
      scanRedrawsStep_good hg hv (hids x (List.mem_cons_self x t))
    have hids1 : ∀ y ∈ t, ∃ l ∈ (scanRedrawsStep o (db, n) x).1.lotteries, l.id = y.lotteryId :=
      fun y hy => scanRedrawsStep_exists_id o (db, n) x (hids y (List.mem_cons_of_mem _ hy))
    exact ih (scanRedrawsStep o (db, n) x).1 (scanRedrawsStep o (db, n) x).2 hg1 hids1

theorem mem_dueLotteries {db : DB} {now : Int} {l : Lottery} :
    l ∈ dueLotteries db now ↔
      l ∈ db.lotteries ∧ l.status = Status.scheduled ∧ l.drawTime ≤ now := by
  simp [dueLotteries, List.mem_filter]

theorem mem_duePairs {db : DB} {now : Int} {x : Nat × Int} :
    x ∈ duePairs db now ↔ ∃ l ∈ dueLotteries db now, x = (l.id, l.numWinners) := by
  simp [duePairs, List.mem_map, eq_comm]

theorem mem_dueRedraws {db : DB} {now : Int} {j : RedrawJob} :
    j ∈ dueRedraws db now ↔ j ∈ db.redraws ∧ j.executionTime ≤ now := by
  simp [dueRedraws, List.mem_filter]

theorem scanDraws_good {db : DB} (hg : GoodDB db) {o : Oracle} (hv : ValidOracle o)
    (now : Int) (n : Nat) : GoodDB ((check_and_run_scheduled_draws o now db n).1) := by
  apply scanDraws_fold_good hv _ db n hg
  intro x hx
  obtain ⟨l, hl, hxe⟩ := mem_duePairs.mp hx
  exact ⟨l, (mem_dueLotteries.mp hl).1, by rw [hxe]⟩

theorem scanRedraws_good {db : DB} (hg : GoodDB db) {o : Oracle} (hv : ValidOracle o)
    (now : Int) (n : Nat) : GoodDB ((check_and_run_scheduled_redraws o now db n).1) := by
  apply scanRedraws_fold_good hv _ db n hg
  intro j hj
  exact hg.jobs_ref j (mem_dueRedraws.mp hj).1

theorem Reachable_good {db : DB} (h : Reachable db) : GoodDB db := by
  induction h with
  | init => exact good_empty
  | step db0 db1 hr hs ih =>
    cases hs with
    | create title sm dt now nw names d0 h => exact create_good ih h
    | scanDraws o now n d0 hv h =>
      rw [← h]
      exact scanDraws_good ih hv now n
    | scanRedraws o now n d0 hv h =>
      rw [← h]
      exact scanRedraws_good ih hv now n
    | planRedraw o n lid sm whenT now chosen numR d0 nn hv hsub hnum h =>
      exact plan_good ih hv h
    | delete lid d0 h =>
      rw [← h]
      exact delete_good ih lid

/-! ### Detailed characterization of the first-draw scan -/

theorem scanDrawsStep_eq (o : Oracle) (db : DB) (n : Nat) (x : Nat × Int) :
    scanDrawsStep o (db, n) x =
      if participantNames db x.1 = [] then (db, n)
      else ((run_draw o n db x.1 x.2 (participantNames db x.1)).2.1,
            (run_draw o n db x.1 x.2 (participantNames db x.1)).2.2) := rfl

theorem scanRedrawsStep_eq (o : Oracle) (db : DB) (n : Nat) (j : RedrawJob) :
    scanRedrawsStep o (db, n) j =
      if splitComma j.candidates = [] then (deleteJob db j.id, n)
      else (deleteJob
              (run_draw o n db j.lotteryId j.numWinners (splitComma j.candidates)).2.1 j.id,
            (run_draw o n db j.lotteryId j.numWinners (splitComma j.candidates)).2.2) := by
  by_cases hc : splitComma j.candidates = []
  · simp only [scanRedrawsStep]
    rw [if_pos hc, if_pos hc]
  · simp only [scanRedrawsStep]
    rw [if_neg hc, if_neg hc]

theorem participantNames_congr {db1 db2 : DB} (h : db1.participants = db2.participants)
    (x : Nat) : participantNames db1 x = participantNames db2 x := by
  unfold participantNames
  rw [h]

theorem winnersFor_of_append {db1 db2 : DB} {ext : List WinnerRow}
    (h : db2.winners = db1.winners ++ ext) (x : Nat) :
    winnersFor db2 x = winnersFor db1 x ++ ext.filter (fun w => w.lotteryId == x) := by
  unfold winnersFor
  rw [h, List.filter_append]

/-- Outcome of the first-draw scan loop relative to the snapshot state:
participants and jobs untouched, lottery rows only marked completed, and
per lottery either its winner rows and statuses are untouched, or (when
it had no winners) one fresh round-1 sample from its roster was recorded
and all of its rows are now completed. The `drawn` field states that a
due item with a non-empty roster and a positive requested count always
ends completed. -/
structure ScanOut (db r : DB) (items : List (Nat × Int)) : Prop where
  parts : r.participants = db.participants
  reds : r.redraws = db.redraws
  lots : ∃ S, r.lotteries = completeIds S db.lotteries
  wchar : ∀ lid,
    (winnersFor r lid = winnersFor db lid ∧
     ∀ l' ∈ r.lotteries, l'.id = lid → ∃ l0 ∈ db.lotteries, l0.id = lid ∧ l'.status = l0.status) ∨
    (winnersFor db lid = [] ∧ ∃ ws : List Name, ws ≠ [] ∧
      ws.Subperm (participantNames db lid) ∧
      winnersFor r lid = ws.map (fun a => (⟨lid, a, 1⟩ : WinnerRow)) ∧
      ∀ l' ∈ r.lotteries, l'.id = lid → l'.status = Status.completed)
  drawn : ∀ x ∈ items, participantNames db x.1 ≠ [] →
    0 < min x.2 ((participantNames db x.1).length : Int) →
    ∀ l' ∈ r.lotteries, l'.id = x.1 → l'.status = Status.completed

theorem scanDraws_fold_char {o : Oracle} (hv : ValidOracle o) :
    ∀ (items : List (Nat × Int)) (db : DB) (n : Nat),
    (items.map Prod.fst).Nodup →
    (∀ x ∈ items, winnersFor db x.1 = []) →
    ScanOut db ((items.foldl (scanDrawsStep o) (db, n)).1) items := by
  intro items
  induction items with
  | nil =>
    intro db n _ _
    refine ScanOut.mk rfl rfl ⟨[], (completeIds_nil db.lotteries).symm⟩ ?_ ?_
    · intro lid
      exact Or.inl ⟨rfl, fun l' hl' hid => ⟨l', hl', hid, rfl⟩⟩
    · intro x hx
      cases hx
  | cons x t ih =>
    intro db n hnd hw
    rw [List.foldl_cons]
    have hndt : (t.map Prod.fst).Nodup := by
      rw [List.map_cons] at hnd
      exact hnd.of_cons
    have hxnotin : x.1 ∉ t.map Prod.fst := by
      rw [List.map_cons] at hnd
      exact (List.nodup_cons.mp hnd).1
    by_cases hp : participantNames db x.1 = []
    · rw [scanDrawsStep_eq, if_pos hp]
      have out := ih db n hndt (fun y hy => hw y (List.mem_cons_of_mem _ hy))
      refine ScanOut.mk out.parts out.reds out.lots out.wchar ?_
      intro y hy hpne hpos
      rcases List.mem_cons.mp hy with rfl | hy2
      · exact absurd hp hpne
      · exact out.drawn y hy2 hpne hpos
    · by_cases ha : min x.2 ((participantNames db x.1).length : Int) ≤ 0
      · rw [scanDrawsStep_eq, if_neg hp, run_draw_noop ha]
        have out := ih db n hndt (fun y hy => hw y (List.mem_cons_of_mem _ hy))
        refine ScanOut.mk out.parts out.reds out.lots out.wchar ?_
        intro y hy hpne hpos
        rcases List.mem_cons.mp hy with rfl | hy2
        · exact absurd hpos (not_lt.mpr ha)
        · exact out.drawn y hy2 hpne hpos
      · push_neg at ha
        rw [scanDrawsStep_eq, if_neg hp]
        set parts := participantNames db x.1 with hpartsdef
        set ws := o n parts (min x.2 (parts.length : Int)).toNat with hwsdef
        have hs : SampleOf parts (min x.2 (parts.length : Int)).toNat ws := by
          rw [hwsdef]
          exact sample_of_valid hv ha n
        have hwsne : ws ≠ [] := sample_ne_nil hs (by omega)
        have hwx : winnersFor db x.1 = [] := hw x (List.mem_cons_self x t)
        have hmax0 : maxRound db x.1 = 0 := maxRound_eq_zero hwx
        set acc1 := (run_draw o n db x.1 x.2 parts).2.1 with hacc1
        set n2 := (run_draw o n db x.1 x.2 parts).2.2 with hn2
        have hW1 : winnersFor acc1 x.1 = ws.map (fun a => (⟨x.1, a, 1⟩ : WinnerRow)) := by
          rw [hacc1]
          have h0 := winnersFor_run_draw_self ha o n db x.1
          rw [hwx, hmax0] at h0
          rw [hwsdef]
          simpa using h0
        have hWo : ∀ y, y ≠ x.1 → winnersFor acc1 y = winnersFor db y := by
          intro y hy
          rw [hacc1]
          exact winnersFor_run_draw_other hy o n db x.2 parts
        have hL1 : acc1.lotteries = completeIds [x.1] db.lotteries := by
          rw [hacc1, run_draw_pos ha]
          have h1 : maxRound db x.1 + 1 = 1 := by omega
          simp [h1]
        have hP1 : acc1.participants = db.participants := by
          rw [hacc1]
          exact run_draw_participants o n db x.1 x.2 parts
        have hR1 : acc1.redraws = db.redraws := by
          rw [hacc1]
          exact run_draw_redraws o n db x.1 x.2 parts
        have hwt : ∀ y ∈ t, winnersFor acc1 y.1 = [] := by
          intro y hy
          have hyne : y.1 ≠ x.1 := by
            intro hcontra
            exact hxnotin (hcontra ▸ List.mem_map_of_mem Prod.fst hy)
          rw [hWo y.1 hyne]
          exact hw y (List.mem_cons_of_mem _ hy)
        have out := ih acc1 n2 hndt hwt
        have hstComp : ∀ l' ∈ ((t.foldl (scanDrawsStep o) (acc1, n2)).1).lotteries,
            l'.id = x.1 → l'.status = Status.completed := by
          rcases out.wchar x.1 with ⟨heq, hst⟩ | ⟨hnil, _, _, _, _, hst2⟩
          · intro l' hl' hid
            obtain ⟨l0, hl0, hid0, hstEq⟩ := hst l' hl' hid
            rw [hL1] at hl0
            obtain ⟨l00, hl00, hmk⟩ := mem_completeIds.mp hl0
            have hid00 : l00.id = x.1 := by rw [← hid0, ← hmk, markDone_id]
            rw [hstEq, ← hmk]
            exact markDone_status_of_mem (by simp [hid00])
          · exact hst2
        refine ScanOut.mk ?_ ?_ ?_ ?_ ?_
        · rw [out.parts, hP1]
        · rw [out.reds, hR1]
        · obtain ⟨S2, hS2⟩ := out.lots
          refine ⟨[x.1] ++ S2, ?_⟩
          rw [hS2, hL1, completeIds_completeIds]
        · intro lid
          by_cases hlid : lid = x.1
          · subst hlid
            rcases out.wchar x.1 with ⟨heq, hst⟩ | ⟨hnil, _⟩
            · refine Or.inr ⟨hwx, ws, hwsne, hs.2, ?_, hstComp⟩
              rw [heq, hW1]
            · rw [hW1] at hnil
              exact absurd hnil (by simp [hwsne])
          · rcases out.wchar lid with ⟨heq, hst⟩ | ⟨hnil, ws2, hne2, hsub2, heq2, hst2⟩
            · refine Or.inl ⟨by rw [heq, hWo lid hlid], ?_⟩
              intro l' hl' hid
              obtain ⟨l0, hl0, hid0, hstEq⟩ := hst l' hl' hid
              rw [hL1] at hl0
              obtain ⟨l00, hl00, hmk⟩ := mem_completeIds.mp hl0
              have hid00 : l00.id = lid := by rw [← hid0, ← hmk, markDone_id]
              have hkeep : markDone [x.1] l00 = l00 :=
                markDone_of_not_mem (by simp [hid00, hlid])
              refine ⟨l00, hl00, hid00, ?_⟩
              rw [hstEq, ← hmk, hkeep]
            · refine Or.inr ⟨by rw [← hWo lid hlid]; exact hnil, ws2, hne2, ?_, heq2, hst2⟩
              rw [← participantNames_congr hP1 lid]
              exact hsub2
        · intro y hy hpne hpos
          rcases List.mem_cons.mp hy with rfl | hy2
          · exact hstComp
          · have hpn : participantNames acc1 y.1 = participantNames db y.1 :=
              participantNames_congr hP1 y.1
            exact out.drawn y hy2 (by rw [hpn]; exact hpne) (by rw [hpn]; exact hpos)

theorem scanDraws_fold_noop (o : Oracle) :
    ∀ (items : List (Nat × Int)) (db : DB) (n : Nat),
    (∀ x ∈ items, participantNames db x.1 = [] ∨
      min x.2 ((participantNames db x.1).length : Int) ≤ 0) →
    items.foldl (scanDrawsStep o) (db, n) = (db, n) := by
  intro items
  induction items with
  | nil =>
    intro db n _
    rfl
  | cons x t ih =>
    intro db n h
    rw [List.foldl_cons]
    have hstep : scanDrawsStep o (db, n) x = (db, n) := by
      rcases h x (List.mem_cons_self x t) with hp | ha
      · rw [scanDrawsStep_eq, if_pos hp]
      · by_cases hp : participantNames db x.1 = []
        · rw [scanDrawsStep_eq, if_pos hp]
        · rw [scanDrawsStep_eq, if_neg hp, run_draw_noop ha]
    rw [hstep]
    exact ih db n (fun y hy => h y (List.mem_cons_of_mem _ hy))

theorem scanRedraws_fold_frozen (o : Oracle) (db : DB) (hg : GoodDB db) :
    ∀ (tasks : List RedrawJob) (d : DB) (m : Nat),
    (∀ j ∈ tasks, j ∈ db.redraws) →
    d.lotteries = db.lotteries →
    d.participants = db.participants →
    (∃ ext, d.winners = db.winners ++ ext) →
    ((tasks.foldl (scanRedrawsStep o) (d, m)).1.lotteries = db.lotteries ∧
     (tasks.foldl (scanRedrawsStep o) (d, m)).1.participants = db.participants ∧
     (∃ ext, (tasks.foldl (scanRedrawsStep o) (d, m)).1.winners = db.winners ++ ext) ∧
     (tasks.foldl (scanRedrawsStep o) (d, m)).1.redraws.Sublist d.redraws ∧
     (∀ t2 ∈ tasks, ∀ j ∈ (tasks.foldl (scanRedrawsStep o) (d, m)).1.redraws, j.id ≠ t2.id)) := by
  intro tasks
  induction tasks with
  | nil =>
    intro d m _ hL hP hW
    exact ⟨hL, hP, hW, List.Sublist.refl _, by intro t2 ht2; cases ht2⟩
  | cons j t ih =>
    intro d m hjs hL hP hW
    rw [List.foldl_cons]
    obtain ⟨l, hlmem0, hlid⟩ := hg.jobs_ref j (hjs j (List.mem_cons_self j t))
    have hlcomp : l.status = Status.completed :=
      hg.jobs_completed j (hjs j (List.mem_cons_self j t)) l hlmem0 hlid
    have hdbne : winnersFor db l.id ≠ [] := hg.completed_winners l hlmem0 hlcomp
    obtain ⟨w, hwmem⟩ := List.exists_mem_of_ne_nil _ hdbne
    obtain ⟨hwdb, hwl⟩ := mem_winnersFor.mp hwmem
    obtain ⟨ext, hext⟩ := hW
    have hwd : w ∈ winnersFor d j.lotteryId := by
      apply mem_winnersFor.mpr
      constructor
      · rw [hext]
        exact List.mem_append_left _ hwdb
      · rw [hwl, hlid]
    have hw1 : 1 ≤ w.drawRound := hg.rounds_pos w hwdb
    have hmax : maxRound d j.lotteryId ≠ 0 := by
      have := one_le_maxRound hwd hw1
      omega
    rw [scanRedrawsStep_eq]
    by_cases hc : splitComma j.candidates = []
    · rw [if_pos hc]
      have hih := ih (deleteJob d j.id) m (fun y hy => hjs y (List.mem_cons_of_mem _ hy))
        (by simpa using hL) (by simpa using hP) ⟨ext, by simpa using hext⟩
      obtain ⟨cL, cP, cW, cSub, cIds⟩ := hih
      refine ⟨cL, cP, cW, ?_, ?_⟩
      · refine cSub.trans ?_
        simp only [deleteJob_redraws]
        exact List.filter_sublist _
      · intro t2 ht2 jj hjj
        rcases List.mem_cons.mp ht2 with rfl | ht2b
        · have hjj2 : jj ∈ (deleteJob d t2.id).redraws := cSub.subset hjj
          simp only [deleteJob_redraws] at hjj2
          have hb := (List.mem_filter.mp hjj2).2
          simpa using hb
        · exact cIds t2 ht2b jj hjj
    · rw [if_neg hc]
      set rd := run_draw o m d j.lotteryId j.numWinners (splitComma j.candidates) with hrd
      have hrdL : rd.2.1.lotteries = d.lotteries := by
        rw [hrd]
        exact run_draw_lotteries_of_pos hmax o m j.numWinners (splitComma j.candidates)
      have hrdP : rd.2.1.participants = d.participants := by
        rw [hrd]
        exact run_draw_participants o m d j.lotteryId j.numWinners (splitComma j.candidates)
      have hrdR : rd.2.1.redraws = d.redraws := by
        rw [hrd]
        exact run_draw_redraws o m d j.lotteryId j.numWinners (splitComma j.candidates)
      have hrdW : ∃ ext2, rd.2.1.winners = d.winners ++ ext2 := by
        by_cases hk : min j.numWinners ((splitComma j.candidates).length : Int) ≤ 0
        · rw [hrd, run_draw_noop hk]
          exact ⟨[], by simp⟩
        · push_neg at hk
          rw [hrd]
          exact ⟨_, run_draw_winners hk o m d j.lotteryId⟩
      obtain ⟨ext2, hext2⟩ := hrdW
      have hih := ih (deleteJob rd.2.1 j.id) rd.2.2
        (fun y hy => hjs y (List.mem_cons_of_mem _ hy))
        (by simpa [hrdL] using hL)
        (by simpa [hrdP] using hP)
        ⟨ext ++ ext2, by
          simp only [deleteJob_winners]
          rw [hext2, hext, List.append_assoc]⟩
      obtain ⟨cL, cP, cW, cSub, cIds⟩ := hih
      refine ⟨cL, cP, cW, ?_, ?_⟩
      · refine cSub.trans ?_
        simp only [deleteJob_redraws]
        rw [hrdR]
        exact List.filter_sublist _
      · intro t2 ht2 jj hjj
        rcases List.mem_cons.mp ht2 with rfl | ht2b
        · have hjj2 : jj ∈ (deleteJob rd.2.1 t2.id).redraws := cSub.subset hjj
          simp only [deleteJob_redraws] at hjj2
          have hb := (List.mem_filter.mp hjj2).2
          simpa using hb
        · exact cIds t2 ht2b jj hjj

theorem duePairs_nodup {db : DB} (hg : GoodDB db) (now : Int) :
    ((duePairs db now).map Prod.fst).Nodup := by
  have h1 : (duePairs db now).map Prod.fst = (dueLotteries db now).map (fun l => l.id) := by
    unfold duePairs
    rw [List.map_map]
    rfl
  rw [h1]
  have h2 : (dueLotteries db now).Sublist db.lotteries := List.filter_sublist _
  exact (h2.map (fun l => l.id)).nodup hg.ids_nodup

theorem duePairs_winners_nil {db : DB} (hg : GoodDB db) (now : Int) :
    ∀ x ∈ duePairs db now, winnersFor db x.1 = [] := by
  intro x hx
  obtain ⟨l, hl, hxe⟩ := mem_duePairs.mp hx
  obtain ⟨hmem, hsch, _⟩ := mem_dueLotteries.mp hl
  rw [hxe]
  exact hg.sched_no_winners l hmem hsch

theorem scan_tick_idem {db : DB} (hg : GoodDB db) {o1 : Oracle} (hv1 : ValidOracle o1)
    (o2 : Oracle) (now : Int) (n1 n2 : Nat) :
    (scan_and_run o2 now (scan_and_run o1 now db n1).1 n2).1 = (scan_and_run o1 now db n1).1 := by
  have char := scanDraws_fold_char hv1 (duePairs db now) db n1 (duePairs_nodup hg now)
    (duePairs_winners_nil hg now)
  set A := check_and_run_scheduled_draws o1 now db n1 with hAdef
  have hAparts : A.1.participants = db.participants := char.parts
  have hAlots : ∃ S, A.1.lotteries = completeIds S db.lotteries := char.lots
  have hAdrawn : ∀ x ∈ duePairs db now, participantNames db x.1 ≠ [] →
      0 < min x.2 ((participantNames db x.1).length : Int) →
      ∀ l' ∈ A.1.lotteries, l'.id = x.1 → l'.status = Status.completed := char.drawn
  have hgA : GoodDB A.1 := scanDraws_good hg hv1 now n1
  have froz := scanRedraws_fold_frozen o1 A.1 hgA (dueRedraws A.1 now) A.1 A.2
    (fun j hj => (mem_dueRedraws.mp hj).1) rfl rfl ⟨[], by simp⟩
  set B := check_and_run_scheduled_redraws o1 now A.1 A.2 with hBdef
  have bL : B.1.lotteries = A.1.lotteries := froz.1
  have bP : B.1.participants = A.1.participants := froz.2.1
  have bSub : B.1.redraws.Sublist A.1.redraws := froz.2.2.2.1
  have bIds : ∀ t2 ∈ dueRedraws A.1 now, ∀ j ∈ B.1.redraws, j.id ≠ t2.id := froz.2.2.2.2
  have hfirst : scan_and_run o1 now db n1 = B := rfl
  have hnoop1 : check_and_run_scheduled_draws o2 now B.1 n2 = (B.1, n2) := by
    apply scanDraws_fold_noop
    intro x hx
    by_cases hp : participantNames B.1 x.1 = []
    · exact Or.inl hp
    refine Or.inr ?_
    by_cases hk : min x.2 ((participantNames B.1 x.1).length : Int) ≤ 0
    · exact hk
    exfalso
    push_neg at hk
    obtain ⟨l', hl', hxe⟩ := mem_duePairs.mp hx
    obtain ⟨hl'mem, hl'sch, hl'due⟩ := mem_dueLotteries.mp hl'
    obtain ⟨S, hS⟩ := hAlots
    have hmem2 : l' ∈ completeIds S db.lotteries := by
      rw [← hS, ← bL]
      exact hl'mem
    obtain ⟨l0, hl0, hmk⟩ := mem_completeIds.mp hmem2
    have hsch0 : (markDone S l0).status = Status.scheduled := by
      rw [hmk]
      exact hl'sch
    obtain ⟨hkeep, hnotS⟩ := markDone_sched hsch0
    have hl'eq : l' = l0 := by rw [← hmk, hkeep]
    have hl0due : l0 ∈ dueLotteries db now :=
      mem_dueLotteries.mpr ⟨hl0, by rw [← hl'eq]; exact hl'sch, by rw [← hl'eq]; exact hl'due⟩
    have hx0 : (l0.id, l0.numWinners) ∈ duePairs db now := mem_duePairs.mpr ⟨l0, hl0due, rfl⟩
    have hPB : participantNames B.1 x.1 = participantNames db x.1 :=
      participantNames_congr (by rw [bP, hAparts]) x.1
    have hxid : x.1 = l0.id := by rw [hxe, hl'eq]
    have hxnw : x.2 = l0.numWinners := by rw [hxe, hl'eq]
    have hp0 : participantNames db l0.id ≠ [] := by
      rw [← hxid, ← hPB]
      exact hp
    have hk0 : 0 < min l0.numWinners ((participantNames db l0.id).length : Int) := by
      rw [← hxid, ← hxnw, ← hPB]
      exact hk
    have hdrawn := hAdrawn (l0.id, l0.numWinners) hx0 hp0 hk0
    have hl'A : l' ∈ A.1.lotteries := by
      rw [← bL]
      exact hl'mem
    have hcomp := hdrawn l' hl'A (by rw [hl'eq])
    rw [hl'sch] at hcomp
    cases hcomp
  have hdue2 : dueRedraws B.1 now = [] := by
    rw [List.eq_nil_iff_forall_not_mem]
    intro j hj
    obtain ⟨hjmem, hjdue⟩ := mem_dueRedraws.mp hj
    have hjA : j ∈ A.1.redraws := bSub.subset hjmem
    have hjtask : j ∈ dueRedraws A.1 now := mem_dueRedraws.mpr ⟨hjA, hjdue⟩
    exact bIds j hjtask j hjmem rfl
  calc (scan_and_run o2 now (scan_and_run o1 now db n1).1 n2).1
      = (scan_and_run o2 now B.1 n2).1 := by rw [hfirst]
    _ = (check_and_run_scheduled_redraws o2 now B.1 n2).1 := by
        show (check_and_run_scheduled_redraws o2 now
          (check_and_run_scheduled_draws o2 now B.1 n2).1
          (check_and_run_scheduled_draws o2 now B.1 n2).2).1 = _
        rw [hnoop1]
    _ = B.1 := by
        unfold check_and_run_scheduled_redraws
        rw [hdue2]
        rfl
    _ = (scan_and_run o1 now db n1).1 := by rw [hfirst]

/-! ### Shapes of the successful admin operations -/

theorem create_ok_shape {db db' : DB} {title : Name} {sm : Bool} {dt now nw : Int}
    {names : List Name} (h : create_lottery db title sm dt now nw names = Except.ok db') :
    title ≠ [] ∧ names ≠ [] ∧
    db' = addLog
      ⟨db.lotteries ++
         [⟨nextLotteryId db, title, (if sm = true then dt else now), nw, Status.scheduled⟩],
       db.participants ++ names.map (fun a => ⟨nextLotteryId db, a⟩),
       db.winners, db.logs, db.redraws⟩ (nextLotteryId db) LogMsg.created := by
  unfold create_lottery at h
  by_cases h1 : title = [] ∨ names = []
  · rw [if_pos h1] at h
    cases h
  rw [if_neg h1] at h
  by_cases h2 : sm = true ∧ dt ≤ now
  · rw [if_pos h2] at h
    cases h
  rw [if_neg h2] at h
  simp only [Except.ok.injEq] at h
  push_neg at h1
  exact ⟨h1.1, h1.2, h.symm⟩

theorem plan_ok_shape {o : Oracle} {n : Nat} {db db' : DB} {lid : Nat} {sm : Bool}
    {whenT now : Int} {chosen : List Name} {numR : Int} {nn : Nat}
    (h : plan_redraw o n db lid sm whenT now chosen numR = Except.ok (db', nn)) :
    (getLottery db lid).map (fun l => l.status) = some Status.completed ∧
    computeEligible db lid ≠ [] ∧ chosen ≠ [] ∧ ¬(sm = true ∧ whenT ≤ now) ∧
    ((sm = true ∧
        db' = addLog ⟨db.lotteries, db.participants, db.winners, db.logs,
          db.redraws ++ [⟨nextJobId db, lid, whenT, numR, joinComma chosen⟩]⟩ lid
          (LogMsg.redrawScheduled chosen.length) ∧ nn = n) ∨
     (¬ sm = true ∧ db' = (run_draw o n db lid numR chosen).2.1 ∧
        nn = (run_draw o n db lid numR chosen).2.2)) := by
  unfold plan_redraw at h
  by_cases h1 : (getLottery db lid).map (fun l => l.status) ≠ some Status.completed
  · rw [if_pos h1] at h
    cases h
  rw [if_neg h1] at h
  push_neg at h1
  by_cases h2 : computeEligible db lid = []
  · rw [if_pos h2] at h
    cases h
  rw [if_neg h2] at h
  by_cases h3 : chosen = []
  · rw [if_pos h3] at h
    cases h
  rw [if_neg h3] at h
  by_cases h4 : sm = true ∧ whenT ≤ now
  · rw [if_pos h4] at h
    cases h
  rw [if_neg h4] at h
  refine ⟨h1, h2, h3, h4, ?_⟩
  by_cases h5 : sm = true
  · rw [if_pos h5] at h
    simp only [Except.ok.injEq, Prod.mk.injEq] at h
    exact Or.inl ⟨h5, h.1.symm, h.2.symm⟩
  · rw [if_neg h5] at h
    simp only [Except.ok.injEq, Prod.mk.injEq] at h
    exact Or.inr ⟨h5, h.1.symm, h.2.symm⟩

theorem lottery_unique {db : DB} (hg : GoodDB db) {l l' : Lottery} (h : l ∈ db.lotteries)
    (h' : l' ∈ db.lotteries) (hid : l'.id = l.id) : l' = l :=
  List.inj_on_of_nodup_map hg.ids_nodup h' h hid

theorem maxRound_rows_one {db : DB} {lid : Nat} {ws : List Name} (hne : ws ≠ [])
    (h : winnersFor db lid = ws.map (fun a => (⟨lid, a, 1⟩ : WinnerRow))) :
    maxRound db lid = 1 := by
  unfold maxRound
  rw [h, List.map_map]
  have hc : ((fun w => w.drawRound) ∘ fun a => (⟨lid, a, 1⟩ : WinnerRow)) =
      (fun _ => (1 : Nat)) := rfl
  rw [hc]
  exact foldr_max_map_const 1 hne

/-- Core of claim C6: how one program step moves lottery statuses. -/
theorem step_status {db db' : DB} (hg : GoodDB db) (hs : Step db db') :
    ∀ l ∈ db.lotteries, ∀ l' ∈ db'.lotteries, l'.id = l.id →
      (l.status = Status.completed → l'.status = Status.completed) ∧
      (l.status = Status.scheduled → l'.status = Status.completed →
        maxRound db l.id = 0 ∧ maxRound db' l.id = 1) := by
  cases hs with
  | create title sm dt now nw names d0 h =>
    obtain ⟨_, _, hshape⟩ := create_ok_shape h
    subst hshape
    intro l hl l' hl' hid
    simp only [addLog_lotteries] at hl'
    rcases List.mem_append.mp hl' with h0 | h0
    · have heql : l' = l := lottery_unique hg hl h0 hid
      subst heql
      refine ⟨fun hc => hc, ?_⟩
      intro hsch hcomp
      rw [hsch] at hcomp
      cases hcomp
    · exfalso
      rw [List.mem_singleton] at h0
      have hid2 : l'.id = nextLotteryId db := by rw [h0]
      have := lt_nextLotteryId hl
      rw [hid] at hid2
      omega
  | scanDraws o now n d0 hv h =>
    rw [← h]
    have char := scanDraws_fold_char hv (duePairs db now) db n (duePairs_nodup hg now)
      (duePairs_winners_nil hg now)
    intro l hl l' hl' hid
    have hl'A : l' ∈ ((duePairs db now).foldl (scanDrawsStep o) (db, n)).1.lotteries := hl'
    rcases char.wchar l.id with ⟨heq, hst⟩ | ⟨hnil, ws, hne, hsubp, heqW, hstC⟩
    · obtain ⟨l0, hl0, hid0, hstEq⟩ := hst l' hl'A hid
      have heql : l0 = l := lottery_unique hg hl hl0 hid0
      subst heql
      constructor
      · intro hc
        rw [hstEq]
        exact hc
      · intro hsch hcomp
        rw [hstEq, hsch] at hcomp
        cases hcomp
    · constructor
      · intro _
        exact hstC l' hl'A hid
      · intro hsch _
        exact ⟨maxRound_eq_zero hnil, maxRound_rows_one hne heqW⟩
  | scanRedraws o now n d0 hv h =>
    rw [← h]
    have froz := scanRedraws_fold_frozen o db hg (dueRedraws db now) db n
      (fun j hj => (mem_dueRedraws.mp hj).1) rfl rfl ⟨[], by simp⟩
    have hLeq : (check_and_run_scheduled_redraws o now db n).1.lotteries = db.lotteries := froz.1
    intro l hl l' hl' hid
    rw [hLeq] at hl'
    have heql : l' = l := lottery_unique hg hl hl' hid
    subst heql
    refine ⟨fun hc => hc, ?_⟩
    intro hsch hcomp
    rw [hsch] at hcomp
    cases hcomp
  | planRedraw o n lid sm whenT now chosen numR d0 nn hv hsub hnum h =>
    obtain ⟨hstat, _, _, _, hbr⟩ := plan_ok_shape h
    obtain ⟨lp, hlpmem, hlpid, hlpcomp⟩ := lotteryStatus_completed hstat
    rcases hbr with ⟨hsm, hshape, hnn⟩ | ⟨hsm, hshape, hnn⟩
    · subst hshape
      intro l hl l' hl' hid
      simp only [addLog_lotteries] at hl'
      have heql : l' = l := lottery_unique hg hl hl' hid
      subst heql
      refine ⟨fun hc => hc, ?_⟩
      intro hsch hcomp
      rw [hsch] at hcomp
      cases hcomp
    · subst hshape
      have hne0 : maxRound db lid ≠ 0 := by
        have hdbne : winnersFor db lp.id ≠ [] := hg.completed_winners lp hlpmem hlpcomp
        obtain ⟨w, hwmem⟩ := List.exists_mem_of_ne_nil _ hdbne
        have hwdb : w ∈ db.winners := (mem_winnersFor.mp hwmem).1
        rw [hlpid] at hwmem
        have h1 := one_le_maxRound hwmem (hg.rounds_pos w hwdb)
        omega
      have hLeq : (run_draw o n db lid numR chosen).2.1.lotteries = db.lotteries :=
        run_draw_lotteries_of_pos hne0 o n numR chosen
      intro l hl l' hl' hid
      rw [hLeq] at hl'
      have heql : l' = l := lottery_unique hg hl hl' hid
      subst heql
      refine ⟨fun hc => hc, ?_⟩
      intro hsch hcomp
      rw [hsch] at hcomp
      cases hcomp
  | delete lid d0 h =>
    rw [← h]
    intro l hl l' hl' hid
    have hmem : l' ∈ db.lotteries := by
      have := hl'
      simp only [delete_lottery] at this
      exact List.mem_of_mem_filter this
    have heql : l' = l := lottery_unique hg hl hmem hid
    subst heql
    refine ⟨fun hc => hc, ?_⟩
    intro hsch hcomp
    rw [hsch] at hcomp
    cases hcomp

/-! ### Counting lemmas for the one-win-per-slot property -/

theorem count_le_of_subperm {l1 l2 : List Name} (h : l1.Subperm l2) (a : Name) :
    l1.count a ≤ l2.count a := by
  unfold List.count
  exact h.countP_le _

theorem count_le_of_sublist {l1 l2 : List Name} (h : l1.Sublist l2) (a : Name) :
    l1.count a ≤ l2.count a :=
  count_le_of_subperm h.subperm a

theorem count_diff (a : Name) : ∀ (l2 l1 : List Name),
    (l1.diff l2).count a = l1.count a - l2.count a := by
  intro l2
  induction l2 with
  | nil => simp
  | cons b t ih =>
    intro l1
    rw [List.diff_cons, ih]
    by_cases hb : a = b
    · subst hb
      rw [List.count_erase_self, List.count_cons_self]
      omega
    · rw [List.count_erase_of_ne hb, List.count_cons_of_ne hb]

theorem computeEligible_eq_diff (db : DB) (lid : Nat) :
    computeEligible db lid = (participantNames db lid).diff (winnerNames db lid) :=
  (List.diff_eq_foldl _ _).symm

theorem participants_filter_delete (db : DB) (lid x : Nat) :
    (delete_lottery db lid).participants.filter (fun p => p.lotteryId == x) =
      if x = lid then [] else db.participants.filter (fun p => p.lotteryId == x) := by
  unfold delete_lottery
  rw [List.filter_filter]
  by_cases h : x = lid
  · rw [if_pos h, List.filter_eq_nil_iff]
    intro p _
    simp [h]
  · rw [if_neg h]
    apply List.filter_congr
    intro p _
    by_cases hp : p.lotteryId = x
    · simp [hp, h]
    · simp [hp]

theorem participantNames_delete (db : DB) (lid x : Nat) :
    participantNames (delete_lottery db lid) x =
      if x = lid then [] else participantNames db x := by
  unfold participantNames
  rw [participants_filter_delete]
  by_cases h : x = lid <;> simp [h]

theorem winnerNames_of_winnersFor {db1 db2 : DB} {x : Nat}
    (h : winnersFor db1 x = winnersFor db2 x) : winnerNames db1 x = winnerNames db2 x := by
  unfold winnerNames
  rw [h]

theorem winnerNames_of_rows {db : DB} {lid r : Nat} {ws : List Name}
    (h : winnersFor db lid = ws.map (fun a => (⟨lid, a, r⟩ : WinnerRow))) :
    winnerNames db lid = ws := by
  unfold winnerNames
  rw [h, List.map_map]
  have hc : ((fun w => w.winnerName) ∘ fun a => (⟨lid, a, r⟩ : WinnerRow)) =
      (fun a => a) := rfl
  rw [hc]
  simp

theorem winCount_empty : WinCountInv DB.empty := by
  intro lid a
  exact Nat.le_refl _

/-- Core of the amended claim C2: every operation other than the
execution of a frozen redraw job preserves the one-win-per-slot bound. -/
theorem stepNF_wincount {db db' : DB} (hg : GoodDB db) (hwc : WinCountInv db)
    (hs : StepNoFrozen db db') : WinCountInv db' := by
  cases hs with
  | create title sm dt now nw names d0 h =>
    obtain ⟨_, _, hshape⟩ := create_ok_shape h
    subst hshape
    intro lid a
    have hwn : winnerNames
        (addLog
          ⟨db.lotteries ++
             [⟨nextLotteryId db, title, (if sm = true then dt else now), nw, Status.scheduled⟩],
           db.participants ++ names.map (fun a => ⟨nextLotteryId db, a⟩),
           db.winners, db.logs, db.redraws⟩ (nextLotteryId db) LogMsg.created) lid =
        winnerNames db lid := rfl
    rw [hwn]
    refine le_trans (hwc lid a) ?_
    unfold participantNames
    simp only [addLog_participants, List.filter_append, List.map_append, List.count_append]
    omega
  | scanDraws o now n d0 hv h =>
    rw [← h]
    have char := scanDraws_fold_char hv (duePairs db now) db n (duePairs_nodup hg now)
      (duePairs_winners_nil hg now)
    intro lid a
    have hparts : participantNames (check_and_run_scheduled_draws o now db n).1 lid =
        participantNames db lid := participantNames_congr char.parts lid
    rw [hparts]
    rcases char.wchar lid with ⟨heq, _⟩ | ⟨hnil, ws, hne, hsubp, heqW, _⟩
    · have hwn : winnerNames (check_and_run_scheduled_draws o now db n).1 lid =
          winnerNames db lid := winnerNames_of_winnersFor heq
      rw [hwn]
      exact hwc lid a
    · have hwn : winnerNames (check_and_run_scheduled_draws o now db n).1 lid = ws :=
        winnerNames_of_rows heqW
      rw [hwn]
      exact count_le_of_subperm hsubp a
  | planRedraw o n lid sm whenT now chosen numR d0 nn hv hsub hnum h =>
    obtain ⟨hstat, _, _, _, hbr⟩ := plan_ok_shape h
    rcases hbr with ⟨hsm, hshape, hnn⟩ | ⟨hsm, hshape, hnn⟩
    · subst hshape
      intro x a
      exact hwc x a
    · subst hshape
      intro x a
      by_cases hk : min numR ((chosen.length : Int)) ≤ 0
      · rw [run_draw_noop hk]
        exact hwc x a
      push_neg at hk
      by_cases hx : x = lid
      · subst hx
        have hW := winnersFor_run_draw_self hk o n db x
        have hwn : winnerNames (run_draw o n db x numR chosen).2.1 x =
            winnerNames db x ++ o n chosen (min numR (chosen.length : Int)).toNat := by
          unfold winnerNames
          rw [hW, List.map_append, List.map_map]
          congr 1
          have hc : ((fun w => w.winnerName) ∘ fun a =>
              (⟨x, a, maxRound db x + 1⟩ : WinnerRow)) = fun a => a := rfl
          rw [hc]
          simp
        have hP := participantNames_congr (run_draw_participants o n db x numR chosen) x
        rw [hwn, hP, List.count_append]
        have hs : SampleOf chosen (min numR (chosen.length : Int)).toNat
            (o n chosen (min numR (chosen.length : Int)).toNat) := sample_of_valid hv hk n
        have h1 : (o n chosen (min numR (chosen.length : Int)).toNat).count a ≤
            chosen.count a := count_le_of_subperm hs.2 a
        have h2 : chosen.count a ≤ (computeEligible db x).count a :=
          count_le_of_sublist hsub a
        have h3 : (computeEligible db x).count a =
            (participantNames db x).count a - (winnerNames db x).count a := by
          rw [computeEligible_eq_diff, count_diff]
        have h4 := hwc x a
        omega
      · have hW := winnersFor_run_draw_other hx o n db numR chosen
        have hwn : winnerNames (run_draw o n db lid numR chosen).2.1 x =
            winnerNames db x := winnerNames_of_winnersFor hW
        have hP := participantNames_congr (run_draw_participants o n db lid numR chosen) x
        rw [hwn, hP]
        exact hwc x a
  | delete lid d0 h =>
    rw [← h]
    intro x a
    rw [participantNames_delete]
    have hwn : winnerNames (delete_lottery db lid) x =
        if x = lid then [] else winnerNames db x := by
      unfold winnerNames
      rw [winnersFor_delete]
      by_cases hx : x = lid <;> simp [hx]
    rw [hwn]
    by_cases hx : x = lid
    · simp [hx]
    · rw [if_neg hx, if_neg hx]
      exact hwc x a

/-! ### The comma encoding of frozen candidate lists -/

theorem splitComma_ne_nil (s : Name) : splitComma s ≠ [] := by
  cases s with
  | nil => simp [splitComma]
  | cons c cs =>
    simp only [splitComma]
    by_cases hc : c = ','
    · simp [hc]
    · rw [if_neg hc]
      cases hsplit : splitComma cs with
      | nil => simp
      | cons s rest => simp

theorem splitComma_no_comma : ∀ (s : Name), ∀ p ∈ splitComma s, ',' ∉ p := by
  intro s
  induction s with
  | nil =>
    intro p hp
    simp only [splitComma, List.mem_singleton] at hp
    subst hp
    simp
  | cons c cs ih =>
    intro p hp
    simp only [splitComma] at hp
    by_cases hc : c = ','
    · rw [if_pos hc] at hp
      rcases List.mem_cons.mp hp with rfl | hp2
      · simp
      · exact ih p hp2
    · rw [if_neg hc] at hp
      cases hsplit : splitComma cs with
      | nil =>
        rw [hsplit] at hp
        simp only [List.mem_singleton] at hp
        subst hp
        intro hmem
        rcases List.mem_cons.mp hmem with heq | hmem2
        · exact hc heq.symm
        · cases hmem2
      | cons s2 rest =>
        rw [hsplit] at hp
        rcases List.mem_cons.mp hp with rfl | hp2
        · intro hmem
          rcases List.mem_cons.mp hmem with heq | hmem2
          · exact hc heq.symm
          · exact ih s2 (by rw [hsplit]; exact List.mem_cons_self s2 rest) hmem2
        · exact ih p (by rw [hsplit]; exact List.mem_cons_of_mem _ hp2)

theorem splitComma_of_no_comma : ∀ (s : Name), ',' ∉ s → splitComma s = [s] := by
  intro s
  induction s with
  | nil =>
    intro _
    rfl
  | cons c cs ih =>
    intro h
    have hc : ¬ (c = ',') := fun heq => h (by rw [heq]; exact List.mem_cons_self ',' cs)
    simp only [splitComma]
    rw [if_neg hc, ih (fun hmem => h (List.mem_cons_of_mem c hmem))]

theorem splitComma_append (s t : Name) (h : ',' ∉ s) :
    splitComma (s ++ ',' :: t) = s :: splitComma t := by
  induction s with
  | nil => simp [splitComma]
  | cons c cs ih =>
    have hc : ¬ (c = ',') := fun heq => h (by rw [heq]; exact List.mem_cons_self ',' cs)
    simp only [List.cons_append, splitComma, List.append_eq]
    rw [if_neg hc, ih (fun hmem => h (List.mem_cons_of_mem c hmem))]

theorem splitComma_joinComma (l : List Name) (hl : l ≠ []) :
    splitComma (joinComma l) = l ↔ ∀ p ∈ l, ',' ∉ p := by
  constructor
  · intro h p hp
    rw [← h] at hp
    exact splitComma_no_comma (joinComma l) p hp
  · intro h
    induction l with
    | nil => exact absurd rfl hl
    | cons s t ih =>
      cases t with
      | nil =>
        show splitComma (joinComma [s]) = [s]
        exact splitComma_of_no_comma s (h s (List.mem_cons_self s []))
      | cons s2 rest =>
        show splitComma (s ++ ',' :: joinComma (s2 :: rest)) = s :: s2 :: rest
        rw [splitComma_append _ _ (h s (List.mem_cons_self s _))]
        have := ih (by simp) (fun p hp => h p (List.mem_cons_of_mem s hp))
        rw [this]

/-! ### Shape of the commit sequence of a due redraw job -/

theorem redraw_task_commits_shape {o : Oracle} {n : Nat} {db : DB} {job : RedrawJob}
    (h2 : 0 < min job.numWinners ((splitComma job.candidates).length : Int)) :
    ∃ c1 : DB,
      redraw_task_commits o n db job =
        [c1,
         addLog c1 job.lotteryId (LogMsg.drew (maxRound db job.lotteryId + 1)
           (o n (splitComma job.candidates)
             (min job.numWinners ((splitComma job.candidates).length : Int)).toNat)),
         deleteJob
           (addLog c1 job.lotteryId (LogMsg.drew (maxRound db job.lotteryId + 1)
             (o n (splitComma job.candidates)
               (min job.numWinners ((splitComma job.candidates).length : Int)).toNat)))
           job.id] ∧
      c1.winners = db.winners ++
        (o n (splitComma job.candidates)
          (min job.numWinners ((splitComma job.candidates).length : Int)).toNat).map
          (fun a => (⟨job.lotteryId, a, maxRound db job.lotteryId + 1⟩ : WinnerRow)) ∧
      c1.participants = db.participants ∧ c1.logs = db.logs ∧ c1.redraws = db.redraws := by
  have hc : splitComma job.candidates ≠ [] := splitComma_ne_nil _
  refine ⟨if maxRound db job.lotteryId + 1 = 1 then
      setCompleted (insertWinners db job.lotteryId
        (o n (splitComma job.candidates)
          (min job.numWinners ((splitComma job.candidates).length : Int)).toNat)
        (maxRound db job.lotteryId + 1)) job.lotteryId
    else
      insertWinners db job.lotteryId
        (o n (splitComma job.candidates)
          (min job.numWinners ((splitComma job.candidates).length : Int)).toNat)
        (maxRound db job.lotteryId + 1), ?_, ?_, ?_, ?_, ?_⟩
  · simp only [redraw_task_commits, run_draw_commits]
    rw [if_neg hc, if_neg hc, if_neg (by omega : ¬ min job.numWinners
      ((splitComma job.candidates).length : Int) ≤ 0)]
    rw [run_draw_pos h2]
    rfl
  · by_cases h0 : maxRound db job.lotteryId + 1 = 1 <;> simp [h0]
  · by_cases h0 : maxRound db job.lotteryId + 1 = 1 <;> simp [h0]
  · by_cases h0 : maxRound db job.lotteryId + 1 = 1 <;> simp [h0]
  · by_cases h0 : maxRound db job.lotteryId + 1 = 1 <;> simp [h0]

theorem run_draw_commits_shape {o : Oracle} {n : Nat} {db : DB} {lid : Nat} {k : Int}
    {c : List Name} (h2 : 0 < min k (c.length : Int)) :
    ∃ c1 : DB,
      run_draw_commits o n db lid k c =
        [c1, addLog c1 lid (LogMsg.drew (maxRound db lid + 1)
          (o n c (min k (c.length : Int)).toNat))] ∧
      c1.winners = db.winners ++ (o n c (min k (c.length : Int)).toNat).map
        (fun a => (⟨lid, a, maxRound db lid + 1⟩ : WinnerRow)) ∧
      c1.participants = db.participants ∧ c1.logs = db.logs ∧ c1.redraws = db.redraws := by
  refine ⟨if maxRound db lid + 1 = 1 then
      setCompleted (insertWinners db lid (o n c (min k (c.length : Int)).toNat)
        (maxRound db lid + 1)) lid
    else insertWinners db lid (o n c (min k (c.length : Int)).toNat)
      (maxRound db lid + 1), ?_, ?_, ?_, ?_, ?_⟩
  · simp only [run_draw_commits]
    rw [if_neg (by omega : ¬ min k (c.length : Int) ≤ 0)]
  · by_cases h0 : maxRound db lid + 1 = 1 <;> simp [h0]
  · by_cases h0 : maxRound db lid + 1 = 1 <;> simp [h0]
  · by_cases h0 : maxRound db lid + 1 = 1 <;> simp [h0]
  · by_cases h0 : maxRound db lid + 1 = 1 <;> simp [h0]

/-! ### Concrete oracles and the reachable trace used as evidence -/

theorem takeOracle_valid : ValidOracle takeOracle := by
  intro n pool k hk
  constructor
  · show (pool.take k).length = k
    rw [List.length_take]
    exact Nat.min_eq_left hk
  · exact (List.take_sublist k pool).subperm

theorem rotOracle_valid : ValidOracle rotOracle := by
  intro n pool k hk
  have hperm : (pool.drop 1 ++ pool.take 1).Perm pool := by
    have h1 : (pool.drop 1 ++ pool.take 1).Perm (pool.take 1 ++ pool.drop 1) :=
      List.perm_append_comm
    have h2 : pool.take 1 ++ pool.drop 1 = pool := List.take_append_drop 1 pool
    rw [h2] at h1
    exact h1
  constructor
  · show ((pool.drop 1 ++ pool.take 1).take k).length = k
    rw [List.length_take, hperm.length_eq]
    exact Nat.min_eq_left hk
  · exact ((List.take_sublist k _).subperm).trans hperm.subperm

theorem reach_dbT1 : Reachable dbT1 :=
  Reachable.step DB.empty dbT1 Reachable.init
    (Step.create DB.empty nmT false 0 0 1 [nmA, nmB] dbT1 rfl)

theorem reach_dbT2 : Reachable dbT2 :=
  Reachable.step dbT1 dbT2 reach_dbT1
    (Step.scanDraws dbT1 rotOracle 0 0 dbT2 rotOracle_valid (by decide))

theorem eligible_dbT2 : computeEligible dbT2 1 = [nmA] := by decide

theorem reach_dbT3 : Reachable dbT3 :=
  Reachable.step dbT2 dbT3 reach_dbT2
    (Step.planRedraw dbT2 takeOracle 0 1 true 10 1 [nmA] 1 dbT3 0 takeOracle_valid
      (by rw [eligible_dbT2]) (by decide) rfl)

theorem eligible_dbT3 : computeEligible dbT3 1 = [nmA] := by decide

theorem reach_dbT4 : Reachable dbT4 :=
  Reachable.step dbT3 dbT4 reach_dbT3
    (Step.planRedraw dbT3 takeOracle 0 1 false 0 2 [nmA] 1 dbT4 1 takeOracle_valid
      (by rw [eligible_dbT3]) (by decide) rfl)

theorem reach_dbT5 : Reachable dbT5 :=
  Reachable.step dbT4 dbT5 reach_dbT4
    (Step.scanRedraws dbT4 takeOracle 10 0 dbT5 takeOracle_valid (by decide))

/-! ### The claims -/

/-- Claim C1: run_draw returns a winner list of length min(requested
count, pool size); the list is drawn from the candidate pool without
replacement (it is a permutation of a sublist of the pool, so distinct
roster slots, with any multiplicity bounded by the pool); and when the
effective count is non-positive — empty pool or non-positive requested
count — it returns the empty list and performs no state change at all:
no winner rows, no status change, no log entry. Randomness is the
random.sample oracle; the theorem holds for every valid oracle, so for
every possible random outcome. -/
theorem claim_C1 {o : Oracle} (hv : ValidOracle o) (n : Nat) (db : DB) (lid : Nat)
    (numToDraw : Int) (candidates : List Name) :
    ((run_draw o n db lid numToDraw candidates).1).length =
      (min numToDraw (candidates.length : Int)).toNat ∧
    ((run_draw o n db lid numToDraw candidates).1).Subperm candidates ∧
    (min numToDraw (candidates.length : Int) ≤ 0 →
      run_draw o n db lid numToDraw candidates = ([], db, n)) := by
  by_cases hk : min numToDraw (candidates.length : Int) ≤ 0
  · rw [run_draw_noop hk]
    refine ⟨?_, List.nil_subperm, fun _ => rfl⟩
    show (0 : Nat) = (min numToDraw (candidates.length : Int)).toNat
    omega
  · push_neg at hk
    have hs := sample_of_valid hv hk n
    rw [run_draw_pos hk]
    exact ⟨hs.1, hs.2, fun hcontra => absurd hcontra (by omega)⟩

/-- Witness for C1 at a concrete input. -/
theorem claim_C1_witness :
    ((run_draw takeOracle 0 dbT1 1 1 [nmA, nmB]).1).length =
      (min 1 ((([nmA, nmB] : List Name).length : Int))).toNat ∧
    ((run_draw takeOracle 0 dbT1 1 1 [nmA, nmB]).1).Subperm [nmA, nmB] ∧
    (min 1 ((([nmA, nmB] : List Name).length : Int)) ≤ 0 →
      run_draw takeOracle 0 dbT1 1 1 [nmA, nmB] = ([], dbT1, 0)) :=
  claim_C1 takeOracle_valid 0 dbT1 1 1 [nmA, nmB]

/-- Claim C2 counterexample: the reachable state dbT5, produced by
creating a lottery over the roster [a, b], drawing b in round 1,
planning a frozen redraw job over a, executing an immediate redraw that
makes a a round-2 winner, and then letting the scanner execute the
frozen job, records the single roster slot a as a winner twice — the
one-win-per-roster-slot invariant fails on the code. -/
theorem claim_C2_counterexample :
    Reachable dbT5 ∧ ¬ WinCountInv dbT5 ∧
    (winnerNames dbT5 1).count nmA = 2 ∧ (participantNames dbT5 1).count nmA = 1 :=
  ⟨reach_dbT5, fun h => absurd (h 1 nmA) (by decide), by decide, by decide⟩

/-- Claim C2 amended: every operation except the execution of a frozen
redraw job preserves the one-win-per-roster-slot bound — for each
lottery no name is recorded as a winner more often than it occurs on
the roster. The frozen-job path can violate the bound because its
candidate list is not re-filtered at execution time. -/
theorem claim_C2_amended {db db' : DB} (hr : Reachable db) (hwc : WinCountInv db)
    (hs : StepNoFrozen db db') : WinCountInv db' :=
  stepNF_wincount (Reachable_good hr) hwc hs

/-- Witness for the amended C2 at a concrete step. -/
theorem claim_C2_amended_witness : WinCountInv dbT1 :=
  claim_C2_amended Reachable.init winCount_empty
    (StepNoFrozen.create DB.empty nmT false 0 0 1 [nmA, nmB] dbT1 rfl)

/-- Claim C3: the scheduler tick is idempotent — on every reachable
state, running scan_and_run twice at the same instant (with any random
oracles) produces the same final state as running it once: the second
pass finds no due unexecuted work because the first pass completed
every drawable due lottery and deleted every due job row. -/
theorem claim_C3 {db : DB} (hr : Reachable db) {o1 o2 : Oracle} (hv1 : ValidOracle o1)
    (hv2 : ValidOracle o2) (now : Int) (n1 n2 : Nat) :
    (scan_and_run o2 now (scan_and_run o1 now db n1).1 n2).1 =
      (scan_and_run o1 now db n1).1 :=
  scan_tick_idem (Reachable_good hr) hv1 o2 now n1 n2

/-- Witness for C3 at a concrete input where the first tick really
draws. -/
theorem claim_C3_witness :
    (scan_and_run takeOracle 0 (scan_and_run takeOracle 0 dbT1 0).1 0).1 =
      (scan_and_run takeOracle 0 dbT1 0).1 :=
  claim_C3 reach_dbT1 takeOracle_valid takeOracle_valid 0 0 0

/-- Claim C4: in every reachable state the round numbers of a lottery
are exactly 1..maxRound — every recorded round lies in that interval
and every number in it is hit — and run_draw tags all rows of a
successful round with maxRound + 1, while a round with effective count
zero changes nothing and so consumes no round number. -/
theorem claim_C4 {db : DB} (hr : Reachable db) (lid : Nat) :
    (∀ w ∈ winnersFor db lid, 1 ≤ w.drawRound ∧ w.drawRound ≤ maxRound db lid) ∧
    (∀ r, 1 ≤ r → r ≤ maxRound db lid → ∃ w ∈ winnersFor db lid, w.drawRound = r) ∧
    (∀ (o : Oracle) (n : Nat) (k : Int) (c : List Name),
      0 < min k (c.length : Int) →
      ((run_draw o n db lid k c).2.1).winners =
        db.winners ++ (o n c (min k (c.length : Int)).toNat).map
          (fun a => (⟨lid, a, maxRound db lid + 1⟩ : WinnerRow))) ∧
    (∀ (o : Oracle) (n : Nat) (k : Int) (c : List Name),
      min k (c.length : Int) ≤ 0 → run_draw o n db lid k c = ([], db, n)) := by
  have hg := Reachable_good hr
  refine ⟨?_, ?_, ?_, ?_⟩
  · intro w hw
    exact ⟨hg.rounds_pos w (mem_winnersFor.mp hw).1, mem_le_maxRound hw⟩
  · intro r h1 h2
    obtain ⟨w, hwmem, hwl, hwr⟩ := hg.rounds_complete lid r h1 h2
    exact ⟨w, mem_winnersFor.mpr ⟨hwmem, hwl⟩, hwr⟩
  · intro o n k c hk
    exact run_draw_winners hk o n db lid
  · intro o n k c hk
    exact run_draw_noop hk o n db lid

/-- Witness for C4 at the reachable state dbT5 with three rounds. -/
theorem claim_C4_witness :
    (∀ w ∈ winnersFor dbT5 1, 1 ≤ w.drawRound ∧ w.drawRound ≤ maxRound dbT5 1) ∧
    (∀ r, 1 ≤ r → r ≤ maxRound dbT5 1 → ∃ w ∈ winnersFor dbT5 1, w.drawRound = r) ∧
    (∀ (o : Oracle) (n : Nat) (k : Int) (c : List Name),
      0 < min k (c.length : Int) →
      ((run_draw o n dbT5 1 k c).2.1).winners =
        dbT5.winners ++ (o n c (min k (c.length : Int)).toNat).map
          (fun a => (⟨1, a, maxRound dbT5 1 + 1⟩ : WinnerRow))) ∧
    (∀ (o : Oracle) (n : Nat) (k : Int) (c : List Name),
      min k (c.length : Int) ≤ 0 → run_draw o n dbT5 1 k c = ([], dbT5, n)) :=
  claim_C4 reach_dbT5 1

/-- Claim C5 counterexample: at the reachable state dbT3 with its due
frozen job, the execution of the job commits in three separate units;
the first committed state is neither the initial state nor the final
one — it already holds the new winner row but still holds the job row
and lacks the log entry — so the all-or-nothing claim fails on the
code. -/
theorem claim_C5_counterexample :
    Reachable dbT3 ∧ jobT ∈ dueRedraws dbT3 10 ∧
    ¬ (∀ c ∈ redraw_task_commits takeOracle 0 dbT3 jobT,
        c = dbT3 ∨ c = (scanRedrawsStep takeOracle (dbT3, 0) jobT).1) :=
  ⟨reach_dbT3, by decide, by decide⟩

/-- Claim C5 amended: the winner rows and the status update of a round
are applied together in one atomic commit, but the log entry is a
second separate commit and the job-row deletion a third: for every due
job with a positive effective count the committed-state sequence is
exactly [c1, addLog c1 ..., deleteJob (addLog c1 ...) job.id], where c1
already holds the new winner rows but still the old log table and the
old job table. An interruption between the commits exposes winners
without the log entry and with the job row still present. -/
theorem claim_C5_amended {o : Oracle} {n : Nat} {db : DB} {job : RedrawJob}
    (h2 : 0 < min job.numWinners ((splitComma job.candidates).length : Int)) :
    ∃ c1 : DB,
      redraw_task_commits o n db job =
        [c1,
         addLog c1 job.lotteryId (LogMsg.drew (maxRound db job.lotteryId + 1)
           (o n (splitComma job.candidates)
             (min job.numWinners ((splitComma job.candidates).length : Int)).toNat)),
         deleteJob
           (addLog c1 job.lotteryId (LogMsg.drew (maxRound db job.lotteryId + 1)
             (o n (splitComma job.candidates)
               (min job.numWinners ((splitComma job.candidates).length : Int)).toNat)))
           job.id] ∧
      c1.winners = db.winners ++
        (o n (splitComma job.candidates)
          (min job.numWinners ((splitComma job.candidates).length : Int)).toNat).map
          (fun a => (⟨job.lotteryId, a, maxRound db job.lotteryId + 1⟩ : WinnerRow)) ∧
      c1.participants = db.participants ∧ c1.logs = db.logs ∧ c1.redraws = db.redraws :=
  redraw_task_commits_shape h2

/-- Witness for the amended C5 at the concrete job of dbT3. -/
theorem claim_C5_amended_witness :
    ∃ c1 : DB,
      redraw_task_commits takeOracle 0 dbT3 jobT =
        [c1,
         addLog c1 jobT.lotteryId (LogMsg.drew (maxRound dbT3 jobT.lotteryId + 1)
           (takeOracle 0 (splitComma jobT.candidates)
             (min jobT.numWinners ((splitComma jobT.candidates).length : Int)).toNat)),
         deleteJob
           (addLog c1 jobT.lotteryId (LogMsg.drew (maxRound dbT3 jobT.lotteryId + 1)
             (takeOracle 0 (splitComma jobT.candidates)
               (min jobT.numWinners ((splitComma jobT.candidates).length : Int)).toNat)))
           jobT.id] ∧
      c1.winners = dbT3.winners ++
        (takeOracle 0 (splitComma jobT.candidates)
          (min jobT.numWinners ((splitComma jobT.candidates).length : Int)).toNat).map
          (fun a => (⟨jobT.lotteryId, a, maxRound dbT3 jobT.lotteryId + 1⟩ : WinnerRow)) ∧
      c1.participants = dbT3.participants ∧ c1.logs = dbT3.logs ∧ c1.redraws = dbT3.redraws :=
  claim_C5_amended (by decide)

/-- Claim C6: across every program step from a reachable state, a
completed lottery never returns to scheduled, and a lottery that moves
from scheduled to completed does so exactly at its first successful
round: before the step it had no rounds (maxRound 0) and after the
step its rounds are exactly round 1; later successful rounds leave the
status at completed. -/
theorem claim_C6 {db db' : DB} (hr : Reachable db) (hs : Step db db') :
    ∀ l ∈ db.lotteries, ∀ l' ∈ db'.lotteries, l'.id = l.id →
      (l.status = Status.completed → l'.status = Status.completed) ∧
      (l.status = Status.scheduled → l'.status = Status.completed →
        maxRound db l.id = 0 ∧ maxRound db' l.id = 1) :=
  step_status (Reachable_good hr) hs

/-- Witness for C6 at the step that completes lottery 1, instantiated
at its concrete row before and after the step. -/
theorem claim_C6_witness :
    (Status.scheduled = Status.completed → Status.completed = Status.completed) ∧
    (Status.scheduled = Status.scheduled → Status.completed = Status.completed →
      maxRound dbT1 1 = 0 ∧ maxRound dbT2 1 = 1) :=
  claim_C6 reach_dbT1
    (Step.scanDraws dbT1 rotOracle 0 0 dbT2 rotOracle_valid (by decide))
    ⟨1, nmT, 0, 1, Status.scheduled⟩ (by decide)
    ⟨1, nmT, 0, 1, Status.completed⟩ (by decide) (by decide)

/-- Claim C7 counterexample: in the state dbX, where lottery 1 is still
scheduled but the name a is already recorded as a round-1 winner, the
lottery is in the due set, yet the pool the scan hands to run_draw (the
raw roster) differs from the spec pool (roster minus recorded winners),
and running the scan re-selects the recorded winner a in round 2 — the
code applies no defensive winner filter. -/
theorem claim_C7_counterexample :
    (1, (1 : Int)) ∈ duePairs dbX 0 ∧
    participantNames dbX 1 ≠ firstDrawPoolSpec dbX 1 ∧
    nmA ∈ winnerNames dbX 1 ∧
    (⟨1, nmA, 2⟩ : WinnerRow) ∈ ((check_and_run_scheduled_draws takeOracle 0 dbX 0).1).winners :=
  ⟨by decide, by decide, by decide, by decide⟩

/-- Claim C7 amended: the scan passes the raw roster with no winner
filter, but on every reachable state a scheduled lottery has no
recorded winners, so for every due lottery the raw roster coincides
with the spec pool (roster minus recorded winners); and the executor is
invoked only when that pool is non-empty (an empty roster makes the
scan step a no-op). -/
theorem claim_C7_amended {db : DB} (hr : Reachable db) (now : Int) :
    ∀ l ∈ dueLotteries db now,
      participantNames db l.id = firstDrawPoolSpec db l.id ∧
      (participantNames db l.id = [] →
        ∀ (o : Oracle) (n : Nat), scanDrawsStep o (db, n) (l.id, l.numWinners) = (db, n)) := by
  intro l hl
  obtain ⟨hmem, hsch, _⟩ := mem_dueLotteries.mp hl
  have hnil : winnerNames db l.id = [] := by
    unfold winnerNames
    rw [(Reachable_good hr).sched_no_winners l hmem hsch]
    rfl
  constructor
  · unfold firstDrawPoolSpec
    rw [hnil]
    rfl
  · intro hp o n
    rw [scanDrawsStep_eq, if_pos hp]

/-- Witness for the amended C7 at the due lottery of the reachable
state dbT1. -/
theorem claim_C7_amended_witness :
    participantNames dbT1 1 = firstDrawPoolSpec dbT1 1 ∧
    (participantNames dbT1 1 = [] →
      ∀ (o : Oracle) (n : Nat), scanDrawsStep o (dbT1, n) (1, 1) = (dbT1, n)) :=
  claim_C7_amended reach_dbT1 0 ⟨1, nmT, 0, 1, Status.scheduled⟩ (by decide)

/-- Claim C8: the eligible pool the re-draw planner computes is the
roster minus the already-recorded winner names, removing one roster
occurrence per winner row (the multiset difference, so a duplicated
name keeps its other slots eligible); and the planner rejects with a
validation error — producing no new database state, in particular no
pending job row — when the chosen set is empty, when the eligible pool
itself is empty, or when a scheduled execution time is not strictly
later than the current time at commit. -/
theorem claim_C8 (o : Oracle) (n : Nat) (db : DB) (lid : Nat) (sm : Bool)
    (whenT now : Int) (chosen : List Name) (numR : Int) :
    computeEligible db lid = (participantNames db lid).diff (winnerNames db lid) ∧
    (∀ a : Name, (computeEligible db lid).count a =
      (participantNames db lid).count a - (winnerNames db lid).count a) ∧
    (chosen = [] ∨ computeEligible db lid = [] ∨ (sm = true ∧ whenT ≤ now) →
      ∃ e, plan_redraw o n db lid sm whenT now chosen numR = Except.error e) := by
  refine ⟨computeEligible_eq_diff db lid, ?_, ?_⟩
  · intro a
    rw [computeEligible_eq_diff, count_diff]
  · intro hcase
    unfold plan_redraw
    by_cases h1 : (getLottery db lid).map (fun l => l.status) ≠ some Status.completed
    · rw [if_pos h1]
      exact ⟨_, rfl⟩
    rw [if_neg h1]
    by_cases h2 : computeEligible db lid = []
    · rw [if_pos h2]
      exact ⟨_, rfl⟩
    rw [if_neg h2]
    by_cases h3 : chosen = []
    · rw [if_pos h3]
      exact ⟨_, rfl⟩
    rw [if_neg h3]
    rcases hcase with hc | hc | hc
    · exact absurd hc h3
    · exact absurd hc h2
    · rw [if_pos hc]
      exact ⟨_, rfl⟩

/-- Witness for C8: an empty chosen set is rejected at a concrete
state. -/
theorem claim_C8_witness :
    ∃ e, plan_redraw takeOracle 0 dbT2 1 true 10 10 [] 1 = Except.error e :=
  (claim_C8 takeOracle 0 dbT2 1 true 10 10 [] 1).2.2 (Or.inl rfl)

/-- Claim C9: deleting a lottery removes its row and cascades over all
four child tables: afterwards a row is queryable in any table exactly
when it was there before and does not reference the deleted id — so no
row of the deleted lottery survives and every row of every other
lottery is untouched. -/
theorem claim_C9 (db : DB) (lid : Nat) :
    (∀ l : Lottery, l ∈ (delete_lottery db lid).lotteries ↔
      l ∈ db.lotteries ∧ l.id ≠ lid) ∧
    (∀ p : ParticipantRow, p ∈ (delete_lottery db lid).participants ↔
      p ∈ db.participants ∧ p.lotteryId ≠ lid) ∧
    (∀ w : WinnerRow, w ∈ (delete_lottery db lid).winners ↔
      w ∈ db.winners ∧ w.lotteryId ≠ lid) ∧
    (∀ e : LogRow, e ∈ (delete_lottery db lid).logs ↔
      e ∈ db.logs ∧ e.lotteryId ≠ lid) ∧
    (∀ j : RedrawJob, j ∈ (delete_lottery db lid).redraws ↔
      j ∈ db.redraws ∧ j.lotteryId ≠ lid) := by
  refine ⟨?_, ?_, ?_, ?_, ?_⟩ <;> intro r <;> simp [delete_lottery, List.mem_filter]

/-- Witness for C9 at the concrete state dbT5. -/
theorem claim_C9_witness :
    ((⟨1, nmB, 1⟩ : WinnerRow) ∈ (delete_lottery dbT5 1).winners ↔
      (⟨1, nmB, 1⟩ : WinnerRow) ∈ dbT5.winners ∧ (1 : Nat) ≠ 1) :=
  (claim_C9 dbT5 1).2.2.1 ⟨1, nmB, 1⟩

/-- Claim C10: the frozen candidate list of a pending redraw is stored
as the comma join of the chosen names and decoded by splitting on
commas; for a non-empty chosen list the decode of the encode returns
the chosen list exactly if and only if no chosen name contains a comma
(a name with a comma decodes into several separate entries); the
decoded list is never empty — splitting any stored string yields at
least one piece — and therefore the empty-pool guard in the redraw scan
loop is dead: the step always takes the run_draw branch. -/
theorem claim_C10 :
    (∀ chosen : List Name, chosen ≠ [] →
      (splitComma (joinComma chosen) = chosen ↔ ∀ p ∈ chosen, ',' ∉ p)) ∧
    (∀ enc : Name, splitComma enc ≠ []) ∧
    (∀ (o : Oracle) (db : DB) (n : Nat) (job : RedrawJob),
      scanRedrawsStep o (db, n) job =
        (deleteJob (run_draw o n db job.lotteryId job.numWinners
          (splitComma job.candidates)).2.1 job.id,
         (run_draw o n db job.lotteryId job.numWinners (splitComma job.candidates)).2.2)) := by
  refine ⟨splitComma_joinComma, splitComma_ne_nil, ?_⟩
  intro o db n job
  rw [scanRedrawsStep_eq, if_neg (splitComma_ne_nil _)]

/-- Witness for C10 at concrete names with and without a comma. -/
theorem claim_C10_witness :
    splitComma (joinComma [nmA, nmB]) = [nmA, nmB] ∧
    splitComma (joinComma [[','], nmB]) ≠ [[','], nmB] ∧
    splitComma [] ≠ [] :=
  ⟨(claim_C10.1 [nmA, nmB] (by decide)).mpr (by decide),
   fun h => absurd ((claim_C10.1 [[','], nmB] (by decide)).mp h [','] (by decide)) (by decide),
   claim_C10.2.1 []⟩
